import Mathlib

/-!
Verification development for the hojson streaming JSON parser (src/hojson.h).

The embedding below is a byte-level shallow embedding of the implementation:

* machine bytes are `Nat` values in `[0, 256)` (the C `char` buffers are
  modelled unsigned);
* `size_t` subtraction, which may wrap, is modelled by `sizeSub` with an
  explicit `% 2 ^ 64`;
* the caller-owned working buffer is a `List Nat` of bytes; node headers are
  kept in a parallel `List HNode` whose `base`/`endOff` fields are the byte
  offsets the C code stores as pointers (`sizeof(hojson_node_t)` is 24 and
  `offsetof(hojson_node_t, data)` is 18 on the LP64 layout assumed here);
* the `double float_value` field is represented by the byte string handed to
  `atof`, since IEEE-754 semantics are outside the scope of this development;
* `uint32_t` counters (`line`, `column`, `depth`) are `Nat`s; their decrements
  are guarded by parser invariants so wrap-around never occurs on the paths
  exercised here.
-/

namespace Hojson

/-- Return and error codes of `hojson_code_t`. -/
inductive Code where
  | cInvalidInput
  | cErrInternal
  | cErrMemory
  | cErrEof
  | cErrMismatch
  | cErrSyn
  | cNoOp
  | cEndOfDocument
  | cName
  | cValue
  | cObjectBegin
  | cObjectEnd
  | cArrayBegin
  | cArrayEnd
deriving Repr, DecidableEq

/-- Numeric value of each `hojson_code_t` member. -/
def codeIdx : Code → Int
  | .cInvalidInput => -6
  | .cErrInternal => -5
  | .cErrMemory => -4
  | .cErrEof => -3
  | .cErrMismatch => -2
  | .cErrSyn => -1
  | .cNoOp => 0
  | .cEndOfDocument => 1
  | .cName => 2
  | .cValue => 3
  | .cObjectBegin => 4
  | .cObjectEnd => 5
  | .cArrayBegin => 6
  | .cArrayEnd => 7

/-- Value types of `hojson_type_t`. -/
inductive VType where
  | tNone
  | tInteger
  | tFloat
  | tString
  | tBoolean
  | tNull
deriving Repr, DecidableEq

/-- Parser states of the anonymous state enum in hojson.h. -/
inductive HState where
  | sErrInternal
  | sErrMemory
  | sErrEof
  | sErrMismatch
  | sErrSyn
  | sNone
  | sUtf8Bom1
  | sUtf8Bom2
  | sUtf16beBom
  | sUtf16leBom
  | sNameExpected
  | sName
  | sPostName
  | sValueExpected
  | sStringValue
  | sEscape
  | sUnicode1
  | sUnicode2
  | sUnicode3
  | sUnicode4
  | sNumberValue
  | sTrueT
  | sTrueR
  | sTrueU
  | sFalseF
  | sFalseA
  | sFalseL
  | sFalseS
  | sNullN
  | sNullU
  | sNullL
  | sPostValue
  | sDone
deriving Repr, DecidableEq

/-- Numeric value of each state, as in the C enum. -/
def stateIdx : HState → Int
  | .sErrInternal => -5
  | .sErrMemory => -4
  | .sErrEof => -3
  | .sErrMismatch => -2
  | .sErrSyn => -1
  | .sNone => 0
  | .sUtf8Bom1 => 1
  | .sUtf8Bom2 => 2
  | .sUtf16beBom => 3
  | .sUtf16leBom => 4
  | .sNameExpected => 5
  | .sName => 6
  | .sPostName => 7
  | .sValueExpected => 8
  | .sStringValue => 9
  | .sEscape => 10
  | .sUnicode1 => 11
  | .sUnicode2 => 12
  | .sUnicode3 => 13
  | .sUnicode4 => 14
  | .sNumberValue => 15
  | .sTrueT => 16
  | .sTrueR => 17
  | .sTrueU => 18
  | .sFalseF => 19
  | .sFalseA => 20
  | .sFalseL => 21
  | .sFalseS => 22
  | .sNullN => 23
  | .sNullU => 24
  | .sNullL => 25
  | .sPostValue => 26
  | .sDone => 27

/-- Bit flags of a stack node (`HOJSON_FLAG_*`), as individual booleans. -/
structure HFlags where
  isArray : Bool := false
  hasName : Bool := false
  comma : Bool := false
  decimal : Bool := false
  exponent : Bool := false
  plusOrMinus : Bool := false
  mustPop : Bool := false
  cleanup : Bool := false
  incDepth : Bool := false
  decDepth : Bool := false
deriving Repr, DecidableEq

/-- Character encodings (`HOJSON_ENCODING_*`). -/
def ENC_UNKNOWN : Nat := 0

/-- UTF-8 encoding id. -/
def ENC_UTF8 : Nat := 1

/-- UTF-16 little-endian encoding id. -/
def ENC_UTF16LE : Nat := 2

/-- UTF-16 big-endian encoding id. -/
def ENC_UTF16BE : Nat := 3

/-- The value of `UINT32_MAX`, used by the decoder as a failure sentinel. -/
def UINT32_MAX : Nat := 4294967295

/-- The value of `sizeof(hojson_node_t)` on the assumed LP64 layout. -/
def NODE_SIZE : Nat := 24

/-- The value of `offsetof(hojson_node_t, data)` on the assumed LP64 layout. -/
def DATA_OFFSET : Nat := 18

/-- A stack node (`hojson_node_t`). `base` is the byte offset of the node in
the working buffer and `endOff` the offset of the last byte of its data; the
`parent` pointer is the successor in the surrounding `List HNode`. -/
structure HNode where
  base : Nat
  endOff : Nat
  flags : HFlags := {}
deriving Repr, DecidableEq

/-- Offset of a node's `data` member inside the buffer. -/
def HNode.dataOff (nd : HNode) : Nat := nd.base + DATA_OFFSET

/-- A decoded or encoded character (`hojson_character_t`); `raw` lists the
encoded bytes (the C code packs them into a little-endian `uint32_t`). -/
structure HChar where
  raw : List Nat := []
  value : Nat := 0
  bytes : Nat := 0
deriving Repr, DecidableEq

/-- Byte access with the C out-of-bounds reads modelled as zero bytes. -/
def getB (l : List Nat) (i : Nat) : Nat := l.getD i 0

/-- Four bytes starting at `off`, as read by the `*(uint32_t*)p` accesses. -/
def read4 (json : List Nat) (off : Nat) : List Nat :=
  [getB json off, getB json (off + 1), getB json (off + 2), getB json (off + 3)]

/-- In-bounds byte range read, as done by `memcpy` from the input. -/
def readBytes (json : List Nat) (off n : Nat) : List Nat := (json.drop off).take n

/-- Write a byte string into a buffer at an offset (`memcpy` into the buffer). -/
def writeBytes : List Nat → Nat → List Nat → List Nat
  | buf, _, [] => buf
  | buf, off, b :: rest => writeBytes (buf.set off b) (off + 1) rest

/-- Zero a byte range (`memset(p, 0, n)`). -/
def zeroRange (buf : List Nat) (off n : Nat) : List Nat :=
  writeBytes buf off (List.replicate n 0)

/-- `size_t` subtraction: wraps modulo `2 ^ 64` exactly as the C expressions
`a - b` on `size_t` operands do. -/
def sizeSub (a b : Nat) : Nat := (a + (2 ^ 64 - b)) % 2 ^ 64

/-- Character classes of the `HOJSON_IS_*` macros. -/
def isNewLine (c : Nat) : Bool := c = 10 || c = 13

/-- Whitespace per `HOJSON_IS_WHITESPACE`. -/
def isWhitespace (c : Nat) : Bool := c = 32 || c = 9 || isNewLine c

/-- Decimal digits per `HOJSON_IS_NUMERIC`. -/
def isNumeric (c : Nat) : Bool := 48 ≤ c && c ≤ 57

/-- Hexadecimal digits per `HOJSON_IS_HEX_CHAR`. -/
def isHexChar (c : Nat) : Bool :=
  isNumeric c || (97 ≤ c && c ≤ 102) || (65 ≤ c && c ≤ 70)

/-- The byte-length detection of `hojson_decode_character` (first switch):
how many encoded bytes the character starting in `str` occupies. -/
def decodeBytes (str : List Nat) (encoding : Nat) : Nat :=
  let b0 := getB str 0
  let b1 := getB str 1
  let b2 := getB str 2
  let b3 := getB str 3
  if encoding = ENC_UNKNOWN then 1
  else if encoding = ENC_UTF8 then
    if (b0 >>> 7) &&& 0x01 = 0x00 then 1
    else if (b0 >>> 5) &&& 0x07 = 0x06 then 2
    else if (b0 >>> 4) &&& 0x0F = 0x0E then 3
    else if (b0 >>> 3) &&& 0x1F = 0x1E then 4
    else 0
  else if encoding = ENC_UTF16BE then
    if (b0 >>> 2) &&& 0x3F = 0x36 && (b2 >>> 2) &&& 0x3F = 0x37 then 4 else 2
  else if encoding = ENC_UTF16LE then
    if (b1 >>> 2) &&& 0x3F = 0x36 && (b3 >>> 2) &&& 0x3F = 0x37 then 4 else 2
  else 0

/-- The value extraction of `hojson_decode_character` (second switch). -/
def decodeValue (str : List Nat) (bytes : Nat) (encoding : Nat) : Nat :=
  let b0 := getB str 0
  let b1 := getB str 1
  let b2 := getB str 2
  let b3 := getB str 3
  if encoding = ENC_UNKNOWN then b0 &&& 0x000000FF
  else if encoding = ENC_UTF8 then
    if bytes = 1 then b0 &&& 0x7F
    else if bytes = 2 then ((b0 &&& 0x1F) <<< 6) ||| (b1 &&& 0x3F)
    else if bytes = 3 then
      ((b0 &&& 0x0F) <<< 12) ||| ((b1 &&& 0x3F) <<< 6) ||| (b2 &&& 0x3F)
    else if bytes = 4 then
      ((b0 &&& 0x07) <<< 18) ||| ((b1 &&& 0x3F) <<< 12) ||| ((b2 &&& 0x3F) <<< 6) ||| (b3 &&& 0x3F)
    else 0
  else if encoding = ENC_UTF16BE then
    if bytes = 2 then (b0 <<< 8) ||| b1
    else if bytes = 4 then
      (((b0 &&& 0x03) <<< 18) ||| (b1 <<< 16) ||| ((b2 &&& 0x03) <<< 8) ||| b3) + 0x00010000
    else 0
  else if encoding = ENC_UTF16LE then
    if bytes = 2 then (b1 <<< 8) ||| b0
    else if bytes = 4 then
      (((b1 &&& 0x03) <<< 18) ||| (b0 <<< 16) ||| ((b3 &&& 0x03) <<< 8) ||| b2) + 0x00010000
    else 0
  else 0

/-- `hojson_decode_character`: decode the character at the start of `str`
given the remaining input length and the document encoding. Returns
`value = UINT32_MAX` with zero bytes when fewer than `bytes` bytes remain. -/
def hojson_decode_character (str : List Nat) (strLength : Nat) (encoding : Nat) : HChar :=
  let bytes := decodeBytes str encoding
  if bytes > strLength then { raw := [], value := UINT32_MAX, bytes := 0 }
  else
    { raw := str.take bytes, value := decodeValue str bytes encoding, bytes := bytes }

/-- `hojson_encode_character`: produce the encoded bytes of a Unicode value in
the document encoding. The masks and shift amounts reproduce the source
exactly, including the `0xFF` low-byte mask of the two-byte UTF-8 branch and
the `>> 20` / `>> 18` shifts of the UTF-16 surrogate branches. -/
def hojson_encode_character (value : Nat) (encoding : Nat) : HChar :=
  if encoding = ENC_UNKNOWN || encoding = ENC_UTF8 then
    if value ≤ 0x0000007F then { value := value, raw := [value], bytes := 1 }
    else if 0x000080 ≤ value && value ≤ 0x000007FF then
      { value := value,
        raw := [0xC0 ||| ((value &&& 0x7C0) >>> 6), 0x80 ||| (value &&& 0xFF)],
        bytes := 2 }
    else if (0x00000800 ≤ value && value ≤ 0x0000D7FF) ||
        (0x0000E000 ≤ value && value ≤ 0x0000FFFF) then
      { value := value,
        raw := [0xE0 ||| ((value &&& 0xF000) >>> 12), 0x80 ||| ((value &&& 0xFC0) >>> 6),
                0x80 ||| (value &&& 0x3F)],
        bytes := 3 }
    else if 0x00010000 ≤ value && value ≤ 0x0010FFFF then
      { value := value,
        raw := [0xF0 ||| ((value &&& 0x1C0000) >>> 18), 0x80 ||| ((value &&& 0x3F000) >>> 12),
                0x80 ||| ((value &&& 0xFC0) >>> 6), 0x80 ||| (value &&& 0x3F)],
        bytes := 4 }
    else { value := value, raw := [], bytes := 0 }
  else if encoding = ENC_UTF16BE then
    if value ≤ 0x0000D7FF || (0x0000E000 ≤ value && value ≤ 0x0000FFFF) then
      { value := value, raw := [(value &&& 0xFF00) >>> 8, value &&& 0xFF], bytes := 2 }
    else if 0x00010000 ≤ value && value ≤ 0x0010FFFF then
      let v := value - 0x00010000
      { value := value,
        raw := [0xD8 ||| ((v &&& 0xC0000) >>> 20), (v &&& 0x3FC00) >>> 18,
                0xDC ||| ((v &&& 0x300) >>> 8), v &&& 0xFF],
        bytes := 4 }
    else { value := value, raw := [], bytes := 0 }
  else if encoding = ENC_UTF16LE then
    if value ≤ 0x0000D7FF || (0x0000E000 ≤ value && value ≤ 0x0000FFFF) then
      { value := value, raw := [value &&& 0xFF, (value &&& 0xFF00) >>> 8], bytes := 2 }
    else if 0x00010000 ≤ value && value ≤ 0x0010FFFF then
      let v := value - 0x00010000
      { value := value,
        raw := [v &&& 0xFF, 0xDC ||| ((v &&& 0x300) >>> 8),
                (v &&& 0x3FC00) >>> 18, 0xD8 ||| ((v &&& 0xC0000) >>> 20)],
        bytes := 4 }
    else { value := value, raw := [], bytes := 0 }
  else { value := value, raw := [], bytes := 0 }

/-- `hojson_hex_character_to_decimal`. -/
def hojson_hex_character_to_decimal (character : Nat) : Nat :=
  if character = 49 then 1
  else if character = 50 then 2
  else if character = 51 then 3
  else if character = 52 then 4
  else if character = 53 then 5
  else if character = 54 then 6
  else if character = 55 then 7
  else if character = 56 then 8
  else if character = 57 then 9
  else if character = 97 || character = 65 then 10
  else if character = 98 || character = 66 then 11
  else if character = 99 || character = 67 then 12
  else if character = 100 || character = 68 then 13
  else if character = 101 || character = 69 then 14
  else if character = 102 || character = 70 then 15
  else 0

/-- The parser context (`hojson_context_t`). Exported pointers (`name`,
`string_value`) are byte offsets into `buffer`; `jsonPtr` is an abstract
identity for the input pointer, used only for the equality test the C code
performs on `context->json`. -/
structure Ctx where
  name : Option Nat := none
  string_value : Option Nat := none
  integer_value : Int := 0
  float_value : List Nat := []
  bool_value : Nat := 0
  value_type : VType := .tNone
  line : Nat := 0
  column : Nat := 0
  depth : Nat := 0
  is_initialized : Nat := 0
  jsonPtr : Option Nat := none
  json : List Nat := []
  json_length : Nat := 0
  encoding : Nat := 0
  iterator : Nat := 0
  bytes_iterated : Nat := 0
  buffer : List Nat := []
  buffer_length : Nat := 0
  state : HState := .sNone
  escape_return_state : HState := .sNone
  error_return_state : HState := .sNone
  stack : List HNode := []
  stream : List Nat := [0, 0, 0, 0]
  stream_length : Nat := 0
  newline_character : Nat := 0
deriving Repr, DecidableEq

/-- `hojson_init`: zero the context, record the (zero-filled) buffer, start at
line one and mark the context initialized. -/
def hojson_init (buffer_length : Nat) : Ctx :=
  { line := 1
    is_initialized := 1
    buffer := List.replicate buffer_length 0
    buffer_length := buffer_length }

/-- `hojson_stay`: step the iterator back over the character just consumed. -/
def hojson_stay (ctx : Ctx) : Ctx :=
  { ctx with iterator := ctx.iterator - ctx.bytes_iterated, column := ctx.column - 1 }

/-- `hojson_push_stack`: allocate a node inside the buffer, or transition to
the insufficient-memory state when it would not fit. The fresh node's flags
are zero because the buffer region it occupies is always zero-filled. -/
def hojson_push_stack (ctx : Ctx) : Ctx :=
  match ctx.stack with
  | [] =>
    if NODE_SIZE ≥ ctx.buffer_length then
      { ctx with error_return_state := ctx.state, state := .sErrMemory }
    else
      { ctx with stack := [{ base := 0, endOff := DATA_OFFSET - 1 }] }
  | top :: _ =>
    if top.endOff + 1 + NODE_SIZE ≥ ctx.buffer_length then
      { ctx with error_return_state := ctx.state, state := .sErrMemory }
    else
      { ctx with stack :=
          { base := top.endOff + 1, endOff := top.endOff + 1 + DATA_OFFSET - 1 } :: ctx.stack }

/-- `hojson_pop_stack`: remove the top node and zero the buffer bytes it
occupied. -/
def hojson_pop_stack (ctx : Ctx) : Ctx :=
  match ctx.stack with
  | [] => ctx
  | top :: rest =>
    { ctx with
        buffer := zeroRange ctx.buffer top.base (max NODE_SIZE (top.endOff + 1 - top.base))
        stack := rest }

/-- `hojson_append_character`: copy the encoded bytes of `c` after the top
node's end, or rewind and fail with insufficient memory. -/
def hojson_append_character (ctx : Ctx) (c : HChar) : Code × Ctx :=
  match ctx.stack with
  | [] => (.cNoOp, ctx) -- unreachable: callers run only after the null-stack guard
  | top :: rest =>
    if top.endOff + c.bytes ≥ ctx.buffer_length then
      let ctx' := hojson_stay ctx
      (.cErrMemory, { ctx' with error_return_state := ctx'.state, state := .sErrMemory })
    else
      (.cNoOp,
        { ctx with
            buffer := writeBytes ctx.buffer (top.endOff + 1) c.raw
            stack := { top with endOff := top.endOff + c.bytes } :: rest })

/-- `hojson_append_terminator`: append a one-byte terminator (two bytes for
UTF-16BE, reproducing the `encoding >= HOJSON_ENCODING_UTF_16_BE` test). -/
def hojson_append_terminator (ctx : Ctx) : Code × Ctx :=
  let bytes := if ctx.encoding ≥ ENC_UTF16BE then 2 else 1
  match ctx.stack with
  | [] => (.cNoOp, ctx) -- unreachable: callers run only after the null-stack guard
  | top :: rest =>
    if top.endOff + bytes ≥ ctx.buffer_length then
      let ctx' := hojson_stay ctx
      (.cErrMemory, { ctx' with error_return_state := ctx'.state, state := .sErrMemory })
    else
      (.cNoOp,
        { ctx with
            buffer := writeBytes ctx.buffer (top.endOff + 1) (List.replicate bytes 0)
            stack := { top with endOff := top.endOff + bytes } :: rest })

/-- `hojson_begin_token`: export the pending name, push a node for the new
object or array, set its deferred flags and emit the begin event. -/
def hojson_begin_token (ctx : Ctx) (token : Nat) : Code × Ctx :=
  let name :=
    match ctx.stack with
    | top :: _ => if top.flags.hasName then some top.dataOff else none
    | [] => none
  let ctx := { ctx with
    name := name, string_value := none, integer_value := 0, float_value := [],
    bool_value := 0 }
  let ctx := hojson_push_stack ctx
  if 0 ≤ stateIdx ctx.state then
    match ctx.stack with
    | top :: rest =>
      let top := { top with flags := { top.flags with cleanup := true, incDepth := true } }
      if token = 123 then
        (.cObjectBegin, { ctx with stack := top :: rest, state := .sNameExpected })
      else if token = 91 then
        let top := { top with flags := { top.flags with isArray := true } }
        (.cArrayBegin, { ctx with stack := top :: rest, state := .sValueExpected })
      else
        (.cErrInternal, { ctx with stack := top :: rest, state := .sErrInternal })
    | [] => (.cErrInternal, { ctx with state := .sErrInternal })
  else
    (.cErrMemory, hojson_stay ctx)

/-- `hojson_end_token`: validate the closing bracket against the open
container, then flag the deferred pop and depth decrement, export the
container's name from the parent node and emit the end event. -/
def hojson_end_token (ctx : Ctx) (token : Nat) : Code × Ctx :=
  match ctx.stack with
  | [] => (.cNoOp, ctx) -- unreachable: callers run only after the null-stack guard
  | top :: rest =>
    if (top.flags.isArray && token ≠ 93) || (!top.flags.isArray && token ≠ 125) then
      (.cErrMismatch, { ctx with state := .sErrMismatch })
    else if top.flags.comma then
      (.cErrSyn, { ctx with state := .sErrSyn })
    else
      let top := { top with flags := { top.flags with mustPop := true, decDepth := true } }
      let (name, rest) :=
        match rest with
        | parent :: rest2 =>
          ((if parent.flags.hasName then some parent.dataOff else none),
           { parent with flags := { parent.flags with cleanup := true } } :: rest2)
        | [] => (none, ([] : List HNode))
      let ctx := { ctx with state := .sPostValue, name := name, stack := top :: rest }
      if top.flags.isArray then (.cArrayEnd, ctx) else (.cObjectEnd, ctx)

/-- Bytes of the C string stored at offset `off` of the buffer, up to (not
including) its NUL terminator. -/
def readCString (buf : List Nat) (off : Nat) : List Nat :=
  (buf.drop off).takeWhile (fun b => b ≠ 0)

/-- Digit accumulator of the `atoi` model. -/
def atoiNatAux : Nat → List Nat → Nat
  | acc, b :: rest => if isNumeric b then atoiNatAux (acc * 10 + (b - 48)) rest else acc
  | acc, [] => acc

/-- Model of the C `atoi`: skip leading whitespace, read an optional sign and
then the longest digit prefix. -/
def atoiModel (s : List Nat) : Int :=
  let s := s.dropWhile (fun b => b = 32 || (9 ≤ b && b ≤ 13))
  match s with
  | 45 :: rest => -(Int.ofNat (atoiNatAux 0 rest))
  | 43 :: rest => Int.ofNat (atoiNatAux 0 rest)
  | _ => Int.ofNat (atoiNatAux 0 s)

/-- Outcome of one switch dispatch of the parse loop: either return a code to
the caller or continue consuming characters. -/
inductive Step where
  | ret (code : Code) (ctx : Ctx)
  | next (ctx : Ctx)
deriving Repr

/-- Update the flags of the top stack node (no-op on an empty stack, which
only the unreachable null-stack branches would exercise). -/
def updTopFlags (ctx : Ctx) (f : HFlags → HFlags) : Ctx :=
  match ctx.stack with
  | [] => ctx
  | top :: rest => { ctx with stack := { top with flags := f top.flags } :: rest }

/-- Top node of the stack (dummy node on an empty stack). -/
def topNode (ctx : Ctx) : HNode :=
  match ctx.stack with
  | [] => { base := 0, endOff := 0 }
  | top :: _ => top

/-- Number termination of `HOJSON_STATE_NUMBER_VALUE`: convert the
accumulated characters with `atof`/`atoi`, flag the deferred clean-up, put
back a non-whitespace terminator and emit the value event. -/
def numberTermCtx (ctx : Ctx) (c : HChar) : Ctx :=
  let top := topNode ctx
  let ctx :=
    if top.flags.decimal || top.flags.exponent then
      { ctx with value_type := .tFloat
                 float_value :=
                   match ctx.string_value with
                   | some off => readCString ctx.buffer off
                   | none => ctx.float_value }
    else
      { ctx with value_type := .tInteger
                 integer_value :=
                   match ctx.string_value with
                   | some off => atoiModel (readCString ctx.buffer off)
                   | none => ctx.integer_value }
  let ctx := { ctx with string_value := none }
  let ctx := updTopFlags ctx (fun f => { f with cleanup := true })
  let ctx := { ctx with state := .sPostValue }
  if !isWhitespace c.value then hojson_stay ctx else ctx

/-- The number-termination path of the `NUMBER_VALUE` case: convert the
collected characters, mark the top node for clean-up, move to `POST_VALUE`
and put non-whitespace terminators back. -/
def numberTerminate (ctx : Ctx) (c : HChar) : Step :=
  .ret .cValue (numberTermCtx ctx c)

/-- One dispatch of the big `switch (context->state)` of `hojson_parse` on an
already decoded character. -/
def parseSwitch (ctx : Ctx) (c : HChar) : Step :=
  match ctx.state with
  | .sNone =>
    if c.value = 123 || c.value = 91 then
      let (code, ctx') := hojson_begin_token ctx c.value
      .ret code ctx'
    else if c.value = 0xEF then
      .next { ctx with state := .sUtf8Bom1, column := ctx.column - 1 }
    else if c.value = 0xFE then
      .next { ctx with state := .sUtf16beBom, column := ctx.column - 1 }
    else if c.value = 0xFF then
      .next { ctx with state := .sUtf16leBom, column := ctx.column - 1 }
    else if !isWhitespace c.value then
      .next { ctx with state := .sErrSyn }
    else
      .next ctx
  | .sUtf8Bom1 =>
    let ctx := { ctx with column := ctx.column - 1 }
    if c.value = 0xBB then .next { ctx with state := .sUtf8Bom2 }
    else .next { ctx with state := .sErrSyn }
  | .sUtf8Bom2 =>
    let ctx := { ctx with column := ctx.column - 1 }
    if c.value = 0xBF then .next { ctx with state := .sNone, encoding := ENC_UTF8 }
    else .next { ctx with state := .sErrSyn }
  | .sUtf16beBom =>
    let ctx := { ctx with column := ctx.column - 1 }
    if c.value = 0xFF then .next { ctx with state := .sNone, encoding := ENC_UTF16BE }
    else .next { ctx with state := .sErrSyn }
  | .sUtf16leBom =>
    let ctx := { ctx with column := ctx.column - 1 }
    if c.value = 0xFE then .next { ctx with state := .sNone, encoding := ENC_UTF16LE }
    else .next { ctx with state := .sErrSyn }
  | .sNameExpected =>
    if c.value = 34 then
      let ctx := updTopFlags ctx (fun f => { f with hasName := true })
      .next { ctx with state := .sName }
    else if c.value = 125 || c.value = 93 then
      let (code, ctx') := hojson_end_token ctx c.value
      .ret code ctx'
    else if !isWhitespace c.value then
      .next { ctx with state := .sErrSyn }
    else
      .next ctx
  | .sName =>
    if c.value = 34 then
      let (code, ctx') := hojson_append_terminator ctx
      if codeIdx code < 0 then .ret code ctx'
      else
        .ret .cName { ctx' with name := some (topNode ctx').dataOff, state := .sPostName }
    else if c.value = 92 then
      .next { ctx with escape_return_state := ctx.state, state := .sEscape }
    else
      let (code, ctx') := hojson_append_character ctx c
      if codeIdx code < 0 then .ret code ctx' else .next ctx'
  | .sPostName =>
    if c.value = 58 then .next { ctx with state := .sValueExpected }
    else if !isWhitespace c.value then .next { ctx with state := .sErrSyn }
    else .next ctx
  | .sValueExpected =>
    if c.value = 34 then
      .next { ctx with string_value := some ((topNode ctx).endOff + 1), state := .sStringValue }
    else if isNumeric c.value || c.value = 45 then
      let ctx := { ctx with string_value := some ((topNode ctx).endOff + 1) }
      let (code, ctx') := hojson_append_character ctx c
      if codeIdx code < 0 then .ret code ctx'
      else .next { ctx' with state := .sNumberValue }
    else if c.value = 116 then .next { ctx with state := .sTrueT }
    else if c.value = 102 then .next { ctx with state := .sFalseF }
    else if c.value = 110 then .next { ctx with state := .sNullN }
    else if c.value = 123 || c.value = 91 then
      let (code, ctx') := hojson_begin_token ctx c.value
      .ret code ctx'
    else if c.value = 125 || c.value = 93 then
      let (code, ctx') := hojson_end_token ctx c.value
      .ret code ctx'
    else if !isWhitespace c.value then .next { ctx with state := .sErrSyn }
    else .next ctx
  | .sStringValue =>
    if c.value = 34 then
      let ctx := updTopFlags ctx (fun f => { f with cleanup := true })
      .ret .cValue { ctx with value_type := .tString, state := .sPostValue }
    else if c.value = 92 then
      .next { ctx with escape_return_state := ctx.state, state := .sEscape }
    else
      let (code, ctx') := hojson_append_character ctx c
      if codeIdx code < 0 then .ret code ctx' else .next ctx'
  | .sEscape =>
    if c.value = 117 then .next { ctx with state := .sUnicode1 }
    else
      let mapped : Option Nat :=
        if c.value = 34 then some 34
        else if c.value = 92 then some 92
        else if c.value = 47 then some 47
        else if c.value = 98 then some 8
        else if c.value = 102 then some 12
        else if c.value = 110 then some 10
        else if c.value = 114 then some 13
        else if c.value = 116 then some 9
        else none
      match mapped with
      | none => .next { ctx with state := .sErrSyn }
      | some ch =>
        let encoded := hojson_encode_character ch ctx.encoding
        let (code, ctx') := hojson_append_character ctx encoded
        if codeIdx code < 0 then .ret code ctx'
        else .next { ctx' with state := ctx'.escape_return_state, escape_return_state := .sNone }
  | .sUnicode1 =>
    if isHexChar c.value then
      .next { ctx with integer_value := hojson_hex_character_to_decimal c.value * 4096
                       state := .sUnicode2 }
    else .next { ctx with state := .sErrSyn }
  | .sUnicode2 =>
    if isHexChar c.value then
      .next { ctx with
        integer_value := ctx.integer_value + hojson_hex_character_to_decimal c.value * 256
        state := .sUnicode3 }
    else .next { ctx with state := .sErrSyn }
  | .sUnicode3 =>
    if isHexChar c.value then
      .next { ctx with
        integer_value := ctx.integer_value + hojson_hex_character_to_decimal c.value * 16
        state := .sUnicode4 }
    else .next { ctx with state := .sErrSyn }
  | .sUnicode4 =>
    if isHexChar c.value then
      let ctx := { ctx with
        integer_value := ctx.integer_value + hojson_hex_character_to_decimal c.value * 1 }
      let encoded := hojson_encode_character ctx.integer_value.toNat ctx.encoding
      let (code, ctx') := hojson_append_character ctx encoded
      if codeIdx code < 0 then .ret code ctx'
      else .next { ctx' with integer_value := 0, state := ctx'.escape_return_state,
                             escape_return_state := .sNone }
    else .next { ctx with state := .sErrSyn }
  | .sNumberValue =>
    if isNumeric c.value then
      let (code, ctx') := hojson_append_character ctx c
      if codeIdx code < 0 then .ret code ctx' else .next ctx'
    else if c.value = 46 then
      if (topNode ctx).flags.decimal then .next { ctx with state := .sErrSyn }
      else
        let (code, ctx') := hojson_append_character ctx c
        if codeIdx code < 0 then .ret code ctx'
        else .next (updTopFlags ctx' (fun f => { f with decimal := true }))
    else if c.value = 101 || c.value = 69 then
      if (topNode ctx).flags.exponent then .next { ctx with state := .sErrSyn }
      else
        let (code, ctx') := hojson_append_character ctx c
        if codeIdx code < 0 then .ret code ctx'
        else .next (updTopFlags ctx' (fun f => { f with exponent := true }))
    else if c.value = 45 || c.value = 43 then
      if !(topNode ctx).flags.exponent then .next { ctx with state := .sErrSyn }
      else if (topNode ctx).flags.plusOrMinus then .next { ctx with state := .sErrSyn }
      else
        let (code, ctx') := hojson_append_character ctx c
        if codeIdx code < 0 then .ret code ctx'
        else .next (updTopFlags ctx' (fun f => { f with plusOrMinus := true }))
    else if isWhitespace c.value || c.value = 44 || c.value = 93 || c.value = 125 then
      numberTerminate ctx c
    else .next { ctx with state := .sErrSyn }
  | .sTrueT =>
    if c.value = 114 then .next { ctx with state := .sTrueR }
    else .next { ctx with state := .sErrSyn }
  | .sTrueR =>
    if c.value = 117 then .next { ctx with state := .sTrueU }
    else .next { ctx with state := .sErrSyn }
  | .sTrueU =>
    if c.value = 101 then
      let ctx := updTopFlags ctx (fun f => { f with cleanup := true })
      .ret .cValue { ctx with value_type := .tBoolean, bool_value := 1, state := .sPostValue }
    else .next { ctx with state := .sErrSyn }
  | .sFalseF =>
    if c.value = 97 then .next { ctx with state := .sFalseA }
    else .next { ctx with state := .sErrSyn }
  | .sFalseA =>
    if c.value = 108 then .next { ctx with state := .sFalseL }
    else .next { ctx with state := .sErrSyn }
  | .sFalseL =>
    if c.value = 115 then .next { ctx with state := .sFalseS }
    else .next { ctx with state := .sErrSyn }
  | .sFalseS =>
    if c.value = 101 then
      let ctx := updTopFlags ctx (fun f => { f with cleanup := true })
      .ret .cValue { ctx with value_type := .tBoolean, bool_value := 0, state := .sPostValue }
    else .next { ctx with state := .sErrSyn }
  | .sNullN =>
    if c.value = 117 then .next { ctx with state := .sNullU }
    else .next { ctx with state := .sErrSyn }
  | .sNullU =>
    if c.value = 108 then .next { ctx with state := .sNullL }
    else .next { ctx with state := .sErrSyn }
  | .sNullL =>
    if c.value = 108 then
      let ctx := updTopFlags ctx (fun f => { f with cleanup := true })
      .ret .cValue { ctx with value_type := .tNull, state := .sPostValue }
    else .next { ctx with state := .sErrSyn }
  | .sPostValue =>
    if c.value = 125 || c.value = 93 then
      let (code, ctx') := hojson_end_token ctx c.value
      .ret code ctx'
    else if c.value = 44 then
      if (topNode ctx).flags.comma then .next { ctx with state := .sErrSyn }
      else
        let ctx := updTopFlags ctx (fun f => { f with comma := true })
        if (topNode ctx).flags.isArray then .next { ctx with state := .sValueExpected }
        else .next { ctx with state := .sNameExpected }
    else if !isWhitespace c.value then .next { ctx with state := .sErrSyn }
    else .next ctx
  | _ => .next ctx -- no switch case: error states and DONE fall through

/-- Number of input bytes left ahead of the iterator. -/
def bytesRemaining (ctx : Ctx) : Nat := ctx.json_length - ctx.iterator

/-- The `bytes_to_copy` computation of the character loop. The subtraction is
on `size_t` operands and wraps when the stream register already holds more
bytes than the input offers. -/
def loopBtc (ctx : Ctx) : Nat := sizeSub (min (bytesRemaining ctx) 4) ctx.stream_length

/-- The stream register after the character loop tops it up from the input. -/
def loopStream (ctx : Ctx) : List Nat :=
  if loopBtc ctx < 4 then
    writeBytes ctx.stream ctx.stream_length (readBytes ctx.json ctx.iterator (loopBtc ctx))
  else read4 ctx.json ctx.iterator

/-- The character the loop decodes from the topped-up stream register. -/
def loopChar (ctx : Ctx) : HChar :=
  hojson_decode_character (loopStream ctx) (bytesRemaining ctx) ctx.encoding

/-- The context returned with `UNEXPECTED_EOF` from inside the character
loop: the topped-up stream register and its length are kept for the next
call and the interrupted state is stashed. -/
def loopEofCtx (ctx : Ctx) : Ctx :=
  { ctx with stream := loopStream ctx, stream_length := loopBtc ctx,
             error_return_state := ctx.state, state := .sErrEof }

/-- The context passed to the state switch: stream topped up, position
tracked for the decoded character, iterator advanced by the bytes consumed
(a `size_t` subtraction) and the stream register marked drained. -/
def loopPosCtx (ctx : Ctx) (c : HChar) : Ctx :=
  let ctx := { ctx with stream := loopStream ctx }
  let ctx :=
    if isNewLine c.value then
      let nl := if ctx.newline_character = 0 then c.value else ctx.newline_character
      { ctx with newline_character := nl,
                 line := if c.value = nl then ctx.line + 1 else ctx.line, column := 0 }
    else { ctx with column := ctx.column + 1 }
  let bi := sizeSub c.bytes ctx.stream_length
  { ctx with bytes_iterated := bi, iterator := ctx.iterator + bi, stream_length := 0 }

/-- One or more iterations of the character loop of `hojson_parse`: feed the
stream register, decode a character, handle end of input, track the position
and dispatch on the current state. `fuel` bounds the iteration count; callers
pass enough for the loop's real termination measure (each iteration consumes
at least one input byte or returns). -/
def parseLoop : Nat → Ctx → Code × Ctx
  | 0, ctx => (.cNoOp, ctx)
  | fuel + 1, ctx =>
    if stateIdx .sNameExpected ≤ stateIdx ctx.state ∧ ctx.stack = [] then
      (.cErrInternal, { ctx with state := .sErrInternal })
    else if (loopChar ctx).value = 0 ∨ (loopChar ctx).value = UINT32_MAX then
      (.cErrEof, loopEofCtx ctx)
    else
      match parseSwitch (loopPosCtx ctx (loopChar ctx)) (loopChar ctx) with
      | .ret code ctx' => (code, ctx')
      | .next ctx' =>
        if 0 ≤ stateIdx ctx'.state ∧ stateIdx ctx'.state ≤ stateIdx .sDone then
          parseLoop fuel ctx'
        else
          (.cErrSyn, ctx')

/-- Deferred depth increment at the start of `hojson_parse`. -/
def entryInc (ctx : Ctx) : Ctx :=
  match ctx.stack with
  | top :: rest =>
    if top.flags.incDepth then
      { ctx with depth := ctx.depth + 1,
                 stack := { top with flags := { top.flags with incDepth := false } } :: rest }
    else ctx
  | [] => ctx

/-- Deferred depth decrement at the start of `hojson_parse`. -/
def entryDec (ctx : Ctx) : Ctx :=
  match ctx.stack with
  | top :: rest =>
    if top.flags.decDepth then
      { ctx with depth := ctx.depth - 1,
                 stack := { top with flags := { top.flags with decDepth := false } } :: rest }
    else ctx
  | [] => ctx

/-- Deferred pop at the start of `hojson_parse`; returns `END_OF_DOCUMENT`
when the popped node was the root. -/
def entryPopCheck (ctx : Ctx) : Step :=
  match ctx.stack with
  | top :: rest =>
    if top.flags.mustPop then
      let ctx' := hojson_pop_stack ctx
      match rest with
      | [] => .ret .cEndOfDocument { ctx' with state := .sDone }
      | _ :: _ => .next ctx'
    else .next ctx
  | [] => .next ctx

/-- Deferred post-value clean-up at the start of `hojson_parse`: zero the top
node's stale data, null the exported fields and clear the per-value flags. -/
def entryCleanup (ctx : Ctx) : Ctx :=
  match ctx.stack with
  | top :: rest =>
    if top.flags.cleanup then
      let (buf, top) :=
        if top.dataOff < top.endOff then
          (zeroRange ctx.buffer top.dataOff (top.endOff - top.dataOff + 1),
           { top with endOff := top.dataOff - 1 })
        else (ctx.buffer, top)
      { ctx with
          buffer := buf
          stack := { top with flags := { top.flags with
            hasName := false, comma := false, decimal := false, exponent := false,
            plusOrMinus := false, cleanup := false } } :: rest
          name := none, value_type := .tNone, string_value := none,
          integer_value := 0, float_value := [], bool_value := 0 }
    else ctx
  | [] => ctx

/-- The deferred-work block at the start of `hojson_parse` (flags processed in
source order; the clean-up check reads the top node left after a pop). -/
def hojson_entry (ctx : Ctx) : Step :=
  match ctx.stack with
  | [] => .next ctx
  | _ :: _ =>
    match entryPopCheck (entryDec (entryInc ctx)) with
    | .ret code ctx' => .ret code ctx'
    | .next ctx' => .next (entryCleanup ctx')

/-- The character the end-of-file recovery path decodes from the start of the
new input slice, on top of whatever the stream register still holds. -/
def eofProbe (ctx1 : Ctx) (json : List Nat) : HChar :=
  let bytes_to_copy := sizeSub (min json.length 4) ctx1.stream_length
  let stream :=
    if bytes_to_copy < 4 then
      writeBytes ctx1.stream ctx1.stream_length (readBytes json 0 bytes_to_copy)
    else read4 json 0
  hojson_decode_character stream json.length ctx1.encoding

/-- The tail of `hojson_parse` after the error-state switch: record a changed
input pointer and run the character loop. -/
def continueParse (ctx : Ctx) (jsonPtr : Nat) (json : List Nat) : Code × Ctx :=
  let ctx :=
    if ctx.jsonPtr ≠ some jsonPtr then
      { ctx with jsonPtr := some jsonPtr, json := json, json_length := json.length,
                 iterator := 0 }
    else ctx
  parseLoop (json.length + 2) ctx

/-- `hojson_parse` on a non-null, initialized context and non-empty input:
deferred work, recovery or pinned-error handling, then the character loop. -/
def hojson_parse_body (ctx : Ctx) (jsonPtr : Nat) (json : List Nat) : Code × Ctx :=
  match hojson_entry ctx with
  | .ret code ctx' => (code, ctx')
  | .next ctx1 =>
    match ctx1.state with
    | .sErrEof =>
      -- try to decode a character at the start of the (hopefully new) input
      if (eofProbe ctx1 json).value = 0 ∨ (eofProbe ctx1 json).value = UINT32_MAX then
        (.cErrEof, ctx1)
      else
        continueParse { ctx1 with state := ctx1.error_return_state,
                                  error_return_state := .sNone } jsonPtr json
    | .sDone => (.cEndOfDocument, ctx1)
    | .sErrInternal => (.cErrInternal, ctx1)
    | .sErrMemory => (.cErrMemory, ctx1)
    | .sErrMismatch => (.cErrMismatch, ctx1)
    | .sErrSyn => (.cErrSyn, ctx1)
    | _ => continueParse ctx1 jsonPtr json

/-- `hojson_parse` including its argument guard: a null or uninitialized
context, a null input or a zero length yield `HOJSON_ERROR_INVALID_INPUT` and
leave the context untouched. -/
def hojson_parse (octx : Option Ctx) (jsonPtr : Nat) (ojson : Option (List Nat)) :
    Code × Option Ctx :=
  match octx, ojson with
  | some ctx, some json =>
    if ctx.is_initialized = 0 ∨ json.length = 0 then (.cInvalidInput, octx)
    else
      let (code, ctx') := hojson_parse_body ctx jsonPtr json
      (code, some ctx')
  | _, _ => (.cInvalidInput, octx)

/-- One event as observed by a caller right after `hojson_parse` returns: the
code together with the exported name, value and depth fields (strings read
out of the buffer at their exported offsets). -/
structure Event where
  code : Code
  name : Option (List Nat)
  value_type : VType
  sval : Option (List Nat)
  ival : Int
  fval : List Nat
  bval : Nat
  depth : Nat
deriving Repr, DecidableEq

/-- Capture the caller-visible fields of a context as an `Event`. -/
def mkEvent (code : Code) (ctx : Ctx) : Event :=
  { code := code
    name := ctx.name.map (readCString ctx.buffer)
    value_type := ctx.value_type
    sval := ctx.string_value.map (readCString ctx.buffer)
    ival := ctx.integer_value
    fval := ctx.float_value
    bval := ctx.bool_value
    depth := ctx.depth }

/-- Single-slice driver: call `hojson_parse` repeatedly on one input slice,
collecting events, until `END_OF_DOCUMENT`, an error, or `fuel` calls. -/
def runCalls : Nat → Ctx → Nat → List Nat → List Event
  | 0, _, _, _ => []
  | fuel + 1, ctx, p, json =>
    let (code, ctx') := hojson_parse_body ctx p json
    if codeIdx code ≤ 0 then []
    else if code = .cEndOfDocument then [mkEvent code ctx']
    else mkEvent code ctx' :: runCalls fuel ctx' p json

/-- Events produced by parsing `json` as a single slice from a fresh context
with a buffer of `bufLen` zero bytes. -/
def eventsOf (bufLen : Nat) (json : List Nat) (fuel : Nat) : List Event :=
  runCalls fuel (hojson_init bufLen) 1 json

/-- Chunked driver: feed the given `(pointer, slice)` chunks in order,
advancing to the next chunk whenever `hojson_parse` reports
`UNEXPECTED_EOF`, and collecting all non-error events. -/
def runChunks : Nat → Ctx → List (Nat × List Nat) → List Event
  | 0, _, _ => []
  | _, _, [] => []
  | fuel + 1, ctx, (p, chunk) :: rest =>
    let (code, ctx') := hojson_parse_body ctx p chunk
    if code = .cErrEof then runChunks fuel ctx' rest
    else if codeIdx code ≤ 0 then []
    else if code = .cEndOfDocument then [mkEvent code ctx']
    else mkEvent code ctx' :: runChunks fuel ctx' ((p, chunk) :: rest)

/-- Split a document into one-byte chunks with pairwise distinct pointers. -/
def chunkify1 (json : List Nat) : List (Nat × List Nat) :=
  (List.range json.length).map (fun i => (i + 1, [getB json i]))

/-- Does the code open a container? -/
def isBeginCode : Code → Bool
  | .cObjectBegin | .cArrayBegin => true
  | _ => false

/-- Does the code close a container? -/
def isEndCode : Code → Bool
  | .cObjectEnd | .cArrayEnd => true
  | _ => false

/-- Scan an event list with a stack of the depths exported at unmatched begin
events, requiring the depth at each end event to be one more than the depth
at its matching begin event. -/
def depthSuccOk : List Event → List Nat → Bool
  | [], _ => true
  | e :: rest, pend =>
    if isBeginCode e.code then depthSuccOk rest (e.depth :: pend)
    else if isEndCode e.code then
      match pend with
      | [] => false
      | d :: pend' => e.depth = d + 1 && depthSuccOk rest pend'
    else depthSuccOk rest pend

/-- The same scan but requiring equality of the two depths, which is the
property claimed by the specification. -/
def depthEqOk : List Event → List Nat → Bool
  | [], _ => true
  | e :: rest, pend =>
    if isBeginCode e.code then depthEqOk rest (e.depth :: pend)
    else if isEndCode e.code then
      match pend with
      | [] => false
      | d :: pend' => e.depth = d && depthEqOk rest pend'
    else depthEqOk rest pend

/-- A node carries no deferred depth or pop work. -/
def nodeClean (nd : HNode) : Bool :=
  !nd.flags.mustPop && !nd.flags.incDepth && !nd.flags.decDepth

/-- Is the state inside the range the character loop runs on
(`HOJSON_STATE_NONE..HOJSON_STATE_DONE`)? -/
def inLoopRange (s : HState) : Bool :=
  decide (0 ≤ stateIdx s) && decide (stateIdx s ≤ stateIdx .sDone)

/-- A live parsing state: inside the loop range and not `DONE`. -/
def isRunningB (s : HState) : Bool := inLoopRange s && !(decide (s = .sDone))

/-- One when the top node awaits its deferred pop, zero otherwise. -/
def topPopBit (ctx : Ctx) : Nat :=
  match ctx.stack with
  | top :: _ => if top.flags.mustPop then 1 else 0
  | [] => 0

/-- Number of containers still open: stack length minus a pending pop. -/
def openCount (ctx : Ctx) : Nat := ctx.stack.length - topPopBit ctx

/-- Call-boundary invariant of a parser context: deferred flags live only on
the top node and are mutually consistent, the exported `depth` agrees with
the stack, fatal states carry no pending pop, and the stashed return states
are live states. -/
def invB (ctx : Ctx) : Bool :=
  ctx.stack.tail.all nodeClean &&
  (match ctx.stack with
   | [] => decide (ctx.depth = 0)
   | top :: _ =>
     decide (ctx.depth + (if top.flags.incDepth then 1 else 0) = ctx.stack.length) &&
     (top.flags.mustPop == top.flags.decDepth) &&
     !(top.flags.incDepth && top.flags.decDepth) &&
     (!top.flags.mustPop || decide (ctx.state = .sPostValue))) &&
  (!(decide (ctx.state = .sDone)) || ctx.stack.isEmpty) &&
  isRunningB ctx.error_return_state &&
  isRunningB ctx.escape_return_state

/-- In-loop invariant: every node is clean, `depth` equals the stack length
and the three state registers are live. -/
def loopInvB (ctx : Ctx) : Bool :=
  ctx.stack.all nodeClean && decide (ctx.depth = ctx.stack.length) &&
  isRunningB ctx.state && isRunningB ctx.error_return_state &&
  isRunningB ctx.escape_return_state

/-- Open-container count expected after an event relative to the count `k`
before it. -/
def expectedOpen (k : Nat) (code : Code) : Nat :=
  if isBeginCode code then k + 1 else if isEndCode code then k - 1 else k

/-- Specification of one `hojson_parse` call that started with `k` open
containers: the invariant is maintained, the open count moves as the event
dictates, begin events expose the enclosing depth `k`, end events expose the
closed container's own depth `k`, and fatal codes pin their states. -/
def parseOk (k : Nat) (code : Code) (ctx' : Ctx) : Prop :=
  invB ctx' = true ∧
  openCount ctx' = expectedOpen k code ∧
  (isBeginCode code = true → ctx'.depth = k) ∧
  (isEndCode code = true → ctx'.depth = k ∧ 1 ≤ k) ∧
  (code = .cErrSyn → ctx'.state = .sErrSyn) ∧
  (code = .cErrMismatch → ctx'.state = .sErrMismatch) ∧
  (code = .cErrInternal → ctx'.state = .sErrInternal) ∧
  (code = .cEndOfDocument → ctx'.state = .sDone)

/-- What one step of the in-loop switch guarantees, relative to the number
`len` of stack nodes before the step: a `next` outcome keeps the in-loop
invariant shape and the stack size, while a `ret` outcome satisfies the
per-call specification with a code that is neither end-of-document nor
no-op. -/
def stepOk (len : Nat) : Step → Prop
  | .next ctx' =>
    ctx'.stack.all nodeClean = true ∧ ctx'.depth = ctx'.stack.length ∧
    ctx'.stack.length = len ∧
    (isRunningB ctx'.state = true ∨ ctx'.state = .sErrSyn) ∧
    isRunningB ctx'.error_return_state = true ∧
    isRunningB ctx'.escape_return_state = true
  | .ret code ctx' =>
    parseOk len code ctx' ∧ code ≠ .cEndOfDocument ∧ code ≠ .cNoOp

/-- What the deferred-work block at the start of a call guarantees: a `ret`
outcome is the end-of-document return satisfying the per-call specification,
and a `next` outcome hands the loop a context whose nodes are all clean,
whose depth matches the stack and whose open count and state registers are
those of the call's start. -/
def entryOk (ctx : Ctx) : Step → Prop
  | .ret code ctx' =>
    parseOk (openCount ctx) code ctx' ∧ code = .cEndOfDocument ∧
    ctx.state = .sPostValue
  | .next ctx1 =>
    ctx1.stack.all nodeClean = true ∧ ctx1.depth = ctx1.stack.length ∧
    openCount ctx1 = openCount ctx ∧ ctx1.state = ctx.state ∧
    ctx1.error_return_state = ctx.error_return_state ∧
    ctx1.escape_return_state = ctx.escape_return_state ∧
    ctx1.iterator = ctx.iterator ∧
    (ctx1.state = .sDone → ctx1.stack = [])

/-- The state a pinned return code keeps the context in. -/
def pinnedState : HState → Option Code
  | .sDone => some .cEndOfDocument
  | .sErrSyn => some .cErrSyn
  | .sErrMismatch => some .cErrMismatch
  | .sErrInternal => some .cErrInternal
  | _ => none

/-- Fold a list of `(pointer, slice)` calls over `hojson_parse`, collecting
the returned codes and the final context. -/
def callSeq : Ctx → List (Nat × List Nat) → List Code × Ctx
  | ctx, [] => ([], ctx)
  | ctx, (p, j) :: rest =>
    let (code, ctx') := hojson_parse_body ctx p j
    let (codes, ctxF) := callSeq ctx' rest
    (code :: codes, ctxF)

/-- UTF-8 document `["é"]` with a UTF-8 byte order mark. -/
def c1Doc : List Nat := [0xEF, 0xBB, 0xBF, 91, 34, 0xC3, 0xA9, 34, 93]

/-- UTF-8 document `{ "a": "Aé" }` with a UTF-8 byte order mark. -/
def c3Doc : List Nat :=
  [0xEF, 0xBB, 0xBF,
   123, 32, 34, 97, 34, 58, 32, 34, 92, 117, 48, 48, 52, 49, 92, 117, 48, 48, 69, 57, 34,
   32, 125]

/-- Document `{"a":}`: a colon with no value before the closing brace. -/
def c5Doc : List Nat := [123, 34, 97, 34, 58, 125]

/-- Document `{}`. -/
def c6Doc : List Nat := [123, 125]

/-- Document `[1 ]`: a number value terminated by whitespace. -/
def c4Doc : List Nat := [91, 49, 32, 93]

/-- A context mid-way through the number `1` of `[1` with a comma arriving
next: the root array node sits at offset 0, the digit has been copied at
offset 19 and `string_value` points at it. -/
def c4Ctx : Ctx :=
  { hojson_init 64 with
      state := .sNumberValue
      stack := [{ base := 0, endOff := 19 }]
      string_value := some 19
      buffer := writeBytes (List.replicate 64 0) 19 [49]
      json := [44]
      json_length := 1
      jsonPtr := some 1
      depth := 1 }

/-- A context inside a string value whose input continues with a NUL byte
followed by more data. -/
def c10Ctx : Ctx :=
  { hojson_init 16 with
      state := .sStringValue
      stack := [{ base := 0, endOff := 18 }]
      json := [0, 65]
      json_length := 2
      jsonPtr := some 1
      depth := 1 }

end Hojson

namespace HojsonRealloc

open Hojson

/-- A stack node as `hojson_realloc` sees it: its own absolute address, the
absolute address stored in its `parent` pointer (none for the root) and the
absolute address stored in its `end` pointer. -/
structure RNode where
  addr : Nat
  parent : Option Nat
  endAddr : Nat
deriving Repr, DecidableEq

/-- The slice of `hojson_context_t` that `hojson_realloc` works on, with
pointers as absolute addresses. `chain` lists the nodes from the top of the
stack to the root, in the order the parent walk visits them. -/
structure RCtx where
  is_initialized : Nat := 0
  buffer_base : Nat := 0
  buffer : List Nat := []
  buffer_length : Nat := 0
  name : Option Nat := none
  string_value : Option Nat := none
  stack : Option Nat := none
  chain : List RNode := []
  state : HState := .sNone
  error_return_state : HState := .sNone
deriving Repr, DecidableEq

/-- Pointer rewrite of `hojson_realloc`: `new_buffer + (p - old_buffer)`. -/
def movePtr (oldBase newBase p : Nat) : Nat := newBase + (p - oldBase)

/-- The per-node rewrite of the parent walk; the `addr` rewrite expresses
that `memcpy` moves each node to the same offset of the new buffer. -/
def moveNode (oldBase newBase : Nat) (nd : RNode) : RNode :=
  { addr := movePtr oldBase newBase nd.addr
    parent := nd.parent.map (movePtr oldBase newBase)
    endAddr := movePtr oldBase newBase nd.endAddr }

/-- `hojson_realloc`: guard, rewrite every node's `parent` and `end`,
rewrite the exported `name`/`string_value` and the stack pointer, zero the
new buffer and copy the whole old buffer over it, and leave the
insufficient-memory state for the stashed `error_return_state`. -/
def hojson_realloc (ctx : RCtx) (newBase : Nat) (newLen : Nat) : RCtx :=
  if ctx.is_initialized = 0 ∨ newLen ≤ ctx.buffer_length then ctx
  else
    { ctx with
        chain := ctx.chain.map (moveNode ctx.buffer_base newBase)
        name := ctx.name.map (movePtr ctx.buffer_base newBase)
        string_value := ctx.string_value.map (movePtr ctx.buffer_base newBase)
        stack := ctx.stack.map (movePtr ctx.buffer_base newBase)
        buffer := ctx.buffer ++ List.replicate (newLen - ctx.buffer_length) 0
        buffer_base := newBase
        buffer_length := newLen
        state := if ctx.state = .sErrMemory then ctx.error_return_state else ctx.state
        error_return_state :=
          if ctx.state = .sErrMemory then .sNone else ctx.error_return_state }

/-- A reallocation scene: an initialized context whose four-byte buffer sits
at address 100, with a root node at the buffer base whose `end` pointer,
exported `name` and `string_value` all point into the old buffer, parked in
the insufficient-memory state. -/
def c8Ctx : RCtx :=
  { is_initialized := 1
    buffer_base := 100
    buffer := [7, 8, 9, 10]
    buffer_length := 4
    name := some 118
    string_value := some 119
    stack := some 100
    chain := [{ addr := 100, parent := none, endAddr := 119 }]
    state := .sErrMemory
    error_return_state := .sStringValue }

end HojsonRealloc

namespace Hojson

/-- C1: the claimed chunking invariance fails on the code. Parsing the
UTF-8 document `["é"]` (with BOM) as a single slice yields the string value
`C3 A9`, but driving the same bytes as one-byte chunks — recovering from
each `UNEXPECTED_EOF` with the next chunk, as the claim prescribes — yields an
empty string value: the recovery check of `hojson_parse` rejects a slice
that is shorter than the whole pending character, so the two bytes of `é`
are skipped. -/
theorem c1_chunked_run_diverges_from_single_slice :
    (eventsOf 64 c1Doc 20).map (fun e => (e.code, e.value_type, e.sval)) =
      [(.cArrayBegin, .tNone, none), (.cValue, .tString, some [0xC3, 0xA9]),
       (.cArrayEnd, .tNone, none), (.cEndOfDocument, .tNone, none)] ∧
    (runChunks 99 (hojson_init 64) (chunkify1 c1Doc)).map
        (fun e => (e.code, e.value_type, e.sval)) =
      [(.cArrayBegin, .tNone, none), (.cValue, .tString, some []),
       (.cArrayEnd, .tNone, none), (.cEndOfDocument, .tNone, none)] ∧
    eventsOf 64 c1Doc 20 ≠ runChunks 99 (hojson_init 64) (chunkify1 c1Doc) := by
  decide

/-- C2: the encode/decode round trip fails in UTF-16. The scalar `U+1F600`
is below `U+10FFFF` and outside the surrogate range, and the encoder does
produce four bytes, but they are `D8 00 DE 00` — the surrogate payload bits
10..19 are lost by the encoder's shift amounts — and decoding them returns
`U+10200`, not `U+1F600`. -/
theorem c2_utf16be_roundtrip_fails :
    (0x1F600 : Nat) ≤ 0x10FFFF ∧ ¬(0xD800 ≤ (0x1F600 : Nat) ∧ (0x1F600 : Nat) ≤ 0xDFFF) ∧
    (hojson_encode_character 0x1F600 ENC_UTF16BE).bytes = 4 ∧
    (hojson_encode_character 0x1F600 ENC_UTF16BE).raw = [0xD8, 0x00, 0xDE, 0x00] ∧
    (hojson_decode_character
        (hojson_encode_character 0x1F600 ENC_UTF16BE).raw 4 ENC_UTF16BE).value = 0x10200 ∧
    (0x10200 : Nat) ≠ 0x1F600 := by
  decide

/-- C3: parsing `{ "a": "Aé" }` in UTF-8 yields a NAME event for
`a` and a string VALUE named `a`, but the value's bytes are `41 C3 E9`, not
the claimed `41 C3 A9`: the encoder's two-byte branch masks the low byte
with `0xFF` instead of `0x3F`, so bits 6..7 of `U+00E9` leak into the
continuation byte. -/
theorem c3_unicode_escape_string_bytes :
    (eventsOf 64 c3Doc 20).map (fun e => (e.code, e.name, e.value_type, e.sval)) =
      [(.cObjectBegin, none, .tNone, none),
       (.cName, some [97], .tNone, none),
       (.cValue, some [97], .tString, some [0x41, 0xC3, 0xE9]),
       (.cObjectEnd, none, .tNone, none),
       (.cEndOfDocument, none, .tNone, none)] ∧
    ([0x41, 0xC3, 0xE9] : List Nat) ≠ [0x41, 0xC3, 0xA9] := by
  decide

/-- C5: a closing brace that arrives in `VALUE_EXPECTED` inside an object —
the document `{"a":}` — does end the object: the code emits OBJECT_END and
then END_OF_DOCUMENT, accepting the invalid document, contrary to the
claim. -/
theorem c5_object_value_expected_close_emits_object_end :
    (eventsOf 64 c5Doc 20).map (fun e => (e.code, e.name)) =
      [(.cObjectBegin, none), (.cName, some [97]), (.cObjectEnd, none),
       (.cEndOfDocument, none)] := by
  decide

/-- C6 counterexample: on the well-formed document `{}` the depth exposed at
OBJECT_BEGIN is 0 while the depth exposed at the matching OBJECT_END is 1,
so the claimed equality of the two depths fails. -/
theorem c6_begin_end_depth_not_equal :
    (eventsOf 64 c6Doc 20).map (fun e => (e.code, e.depth)) =
      [(.cObjectBegin, 0), (.cObjectEnd, 1), (.cEndOfDocument, 0)] ∧
    depthEqOk (eventsOf 64 c6Doc 20) [] = false := by
  decide

/-- C4 counterexample: parsing `[1 ]`, the call that returns the integer
VALUE for `1` was terminated by the space, and the space is consumed — the
iterator ends at offset 3, not at offset 2 as the claimed unconditional
put-back would leave it. -/
theorem c4_whitespace_terminator_not_put_back :
    (hojson_parse_body (hojson_parse_body (hojson_init 64) 1 c4Doc).2 1 c4Doc).1 =
      .cValue ∧
    (hojson_parse_body (hojson_parse_body (hojson_init 64) 1 c4Doc).2 1 c4Doc).2.value_type =
      .tInteger ∧
    (hojson_parse_body (hojson_parse_body (hojson_init 64) 1 c4Doc).2 1 c4Doc).2.integer_value =
      1 ∧
    (hojson_parse_body (hojson_parse_body (hojson_init 64) 1 c4Doc).2 1 c4Doc).2.iterator = 3 ∧
    (hojson_parse_body (hojson_parse_body (hojson_init 64) 1 c4Doc).2 1 c4Doc).2.iterator ≠ 2 := by
  decide

end Hojson

namespace Hojson

theorem stepOk_next (len : Nat) (ctx' : Ctx)
    (h : ctx'.stack.all nodeClean = true ∧ ctx'.depth = ctx'.stack.length ∧
      ctx'.stack.length = len ∧
      (isRunningB ctx'.state = true ∨ ctx'.state = .sErrSyn) ∧
      isRunningB ctx'.error_return_state = true ∧
      isRunningB ctx'.escape_return_state = true) :
    stepOk len (Step.next ctx') := h

theorem stepOk_ret (len : Nat) (code : Code) (ctx' : Ctx)
    (h : parseOk len code ctx' ∧ code ≠ .cEndOfDocument ∧ code ≠ .cNoOp) :
    stepOk len (Step.ret code ctx') := h

theorem updTopFlags_depth (ctx : Ctx) (f : HFlags → HFlags) :
    (updTopFlags ctx f).depth = ctx.depth := by
  rcases h : ctx.stack <;> simp [updTopFlags, h]

theorem updTopFlags_erstate (ctx : Ctx) (f : HFlags → HFlags) :
    (updTopFlags ctx f).error_return_state = ctx.error_return_state := by
  rcases h : ctx.stack <;> simp [updTopFlags, h]

theorem updTopFlags_escstate (ctx : Ctx) (f : HFlags → HFlags) :
    (updTopFlags ctx f).escape_return_state = ctx.escape_return_state := by
  rcases h : ctx.stack <;> simp [updTopFlags, h]

theorem begin_token_spec (ctx : Ctx) (tok : Nat) (h : loopInvB ctx = true)
    (htok : tok = 123 ∨ tok = 91) :
    parseOk ctx.stack.length (hojson_begin_token ctx tok).1 (hojson_begin_token ctx tok).2 ∧
      (hojson_begin_token ctx tok).1 ≠ .cEndOfDocument ∧
      (hojson_begin_token ctx tok).1 ≠ .cNoOp := by
  simp only [loopInvB, Bool.and_eq_true, decide_eq_true_eq, List.all_eq_true] at h
  obtain ⟨⟨⟨⟨hclean, hdepth⟩, hrun⟩, herr⟩, hesc⟩ := h
  simp only [isRunningB, inLoopRange, Bool.and_eq_true, Bool.not_eq_true',
    decide_eq_true_eq, decide_eq_false_iff_not] at hrun
  have hmem : ∀ nd ∈ ctx.stack,
      nd.flags.mustPop = false ∧ nd.flags.incDepth = false ∧ nd.flags.decDepth = false := by
    intro nd hnd
    have := hclean nd hnd
    simp only [nodeClean, Bool.and_eq_true, Bool.not_eq_true'] at this
    exact ⟨this.1.1, this.1.2, this.2⟩
  obtain ⟨nm, sv, iv, fv, bv, vt, ln, col, dep, ini, jp, js, jl, enc, it, bi, buf, bl,
    st, esc, ers, stk, strm, sl, nlc⟩ := ctx
  simp only at hdepth hrun herr hesc hmem ⊢
  unfold parseOk
  cases stk with
  | nil =>
    simp only [hojson_begin_token, hojson_push_stack]
    split
    · -- capacity failure pushing the root
      dsimp only
      rw [if_neg (show ¬((0 : Int) ≤ stateIdx .sErrMemory) by decide)]
      refine ⟨⟨?_, ?_, by simp [isBeginCode], by simp [isEndCode], by simp, by simp,
        by simp, by simp⟩, by simp, by simp⟩
      · simp_all [invB, hojson_stay, isRunningB, inLoopRange]
      · simp [openCount, topPopBit, expectedOpen, hojson_stay, isBeginCode, isEndCode]
    · -- the root was pushed
      dsimp only
      rw [if_pos hrun.1.1]
      rcases htok with rfl | rfl
      · rw [if_pos rfl]
        refine ⟨⟨?_, ?_, ?_, by simp [isEndCode], by simp, by simp, by simp, by simp⟩,
          by simp, by simp⟩
        · simp_all [invB, isRunningB, inLoopRange]
        · simp [openCount, topPopBit, expectedOpen, isBeginCode, isEndCode]
        · intro _
          simpa using hdepth
      · rw [if_neg (by decide : ¬((91 : Nat) = 123)), if_pos rfl]
        refine ⟨⟨?_, ?_, ?_, by simp [isEndCode], by simp, by simp, by simp, by simp⟩,
          by simp, by simp⟩
        · simp_all [invB, isRunningB, inLoopRange]
        · simp [openCount, topPopBit, expectedOpen, isBeginCode, isEndCode]
        · intro _
          simpa using hdepth
  | cons top rest =>
    have htopc := hmem top (by simp)
    simp only [hojson_begin_token, hojson_push_stack]
    split
    · -- capacity failure pushing a child
      dsimp only
      rw [if_neg (show ¬((0 : Int) ≤ stateIdx .sErrMemory) by decide)]
      refine ⟨⟨?_, ?_, by simp [isBeginCode], by simp [isEndCode], by simp, by simp,
        by simp, by simp⟩, by simp, by simp⟩
      · simp_all [invB, hojson_stay, isRunningB, inLoopRange]
      · simp [openCount, topPopBit, expectedOpen, hojson_stay, isBeginCode, isEndCode,
          htopc.1]
    · -- a child node was pushed
      dsimp only
      rw [if_pos hrun.1.1]
      rcases htok with rfl | rfl
      · rw [if_pos rfl]
        refine ⟨⟨?_, ?_, ?_, by simp [isEndCode], by simp, by simp, by simp, by simp⟩,
          by simp, by simp⟩
        · simp_all [invB, isRunningB, inLoopRange, nodeClean]
        · simp [openCount, topPopBit, expectedOpen, isBeginCode, isEndCode]
        · intro _
          simpa using hdepth
      · rw [if_neg (by decide : ¬((91 : Nat) = 123)), if_pos rfl]
        refine ⟨⟨?_, ?_, ?_, by simp [isEndCode], by simp, by simp, by simp, by simp⟩,
          by simp, by simp⟩
        · simp_all [invB, isRunningB, inLoopRange, nodeClean]
        · simp [openCount, topPopBit, expectedOpen, isBeginCode, isEndCode]
        · intro _
          simpa using hdepth

end Hojson

namespace Hojson

theorem end_token_spec (ctx : Ctx) (tok : Nat) (h : loopInvB ctx = true)
    (hne : ctx.stack ≠ []) :
    parseOk ctx.stack.length (hojson_end_token ctx tok).1 (hojson_end_token ctx tok).2 ∧
      (hojson_end_token ctx tok).1 ≠ .cEndOfDocument ∧
      (hojson_end_token ctx tok).1 ≠ .cNoOp := by
  simp only [loopInvB, Bool.and_eq_true, decide_eq_true_eq, List.all_eq_true] at h
  obtain ⟨⟨⟨⟨hclean, hdepth⟩, hrun⟩, herr⟩, hesc⟩ := h
  simp only [isRunningB, inLoopRange, Bool.and_eq_true, Bool.not_eq_true',
    decide_eq_true_eq, decide_eq_false_iff_not] at hrun
  have hmem : ∀ nd ∈ ctx.stack,
      nd.flags.mustPop = false ∧ nd.flags.incDepth = false ∧ nd.flags.decDepth = false := by
    intro nd hnd
    have := hclean nd hnd
    simp only [nodeClean, Bool.and_eq_true, Bool.not_eq_true'] at this
    exact ⟨this.1.1, this.1.2, this.2⟩
  have hcleanmem := hclean
  obtain ⟨nm, sv, iv, fv, bv, vt, ln, col, dep, ini, jp, js, jl, enc, it, bi, buf, bl,
    st, esc, ers, stk, strm, sl, nlc⟩ := ctx
  simp only at hdepth hrun herr hesc hmem hcleanmem ⊢
  unfold parseOk
  cases stk with
  | nil => exact absurd rfl hne
  | cons top rest =>
    have htopc := hmem top (by simp)
    simp only [hojson_end_token]
    split
    · -- bracket type mismatch
      refine ⟨⟨?_, ?_, by simp [isBeginCode], by simp [isEndCode], by simp, by simp,
        by simp, by simp⟩, by simp, by simp⟩
      · simp_all [invB, isRunningB, inLoopRange]
      · simp [openCount, topPopBit, expectedOpen, isBeginCode, isEndCode, htopc.1]
    · split
      · -- trailing comma
        refine ⟨⟨?_, ?_, by simp [isBeginCode], by simp [isEndCode], by simp, by simp,
          by simp, by simp⟩, by simp, by simp⟩
        · simp_all [invB, isRunningB, inLoopRange]
        · simp [openCount, topPopBit, expectedOpen, isBeginCode, isEndCode, htopc.1]
      · -- the container closes
        cases rest with
        | nil =>
          dsimp only
          split
          · refine ⟨⟨?_, ?_, by simp [isBeginCode], ?_, by simp, by simp,
              by simp, by simp⟩, by simp, by simp⟩
            · simp_all [invB, isRunningB, inLoopRange, htopc.2.1]
            · simp [openCount, topPopBit, expectedOpen, isBeginCode, isEndCode]
            · intro _
              simpa [htopc.2.1] using hdepth
          · refine ⟨⟨?_, ?_, by simp [isBeginCode], ?_, by simp, by simp,
              by simp, by simp⟩, by simp, by simp⟩
            · simp_all [invB, isRunningB, inLoopRange, htopc.2.1]
            · simp [openCount, topPopBit, expectedOpen, isBeginCode, isEndCode]
            · intro _
              simpa [htopc.2.1] using hdepth
        | cons parent rest2 =>
          have hparc := hmem parent (by simp)
          dsimp only
          split
          · refine ⟨⟨?_, ?_, by simp [isBeginCode], ?_, by simp, by simp,
              by simp, by simp⟩, by simp, by simp⟩
            · simp_all [invB, isRunningB, inLoopRange, htopc.2.1, nodeClean]
            · simp [openCount, topPopBit, expectedOpen, isBeginCode, isEndCode]
            · intro _
              simpa [htopc.2.1] using hdepth
          · refine ⟨⟨?_, ?_, by simp [isBeginCode], ?_, by simp, by simp,
              by simp, by simp⟩, by simp, by simp⟩
            · simp_all [invB, isRunningB, inLoopRange, htopc.2.1, nodeClean]
            · simp [openCount, topPopBit, expectedOpen, isBeginCode, isEndCode]
            · intro _
              simpa [htopc.2.1] using hdepth

end Hojson

namespace Hojson

theorem append_character_spec (ctx : Ctx) (c : HChar) (h : loopInvB ctx = true) :
    (codeIdx (hojson_append_character ctx c).1 < 0 →
      parseOk ctx.stack.length (hojson_append_character ctx c).1
        (hojson_append_character ctx c).2 ∧
      (hojson_append_character ctx c).1 ≠ .cEndOfDocument ∧
      (hojson_append_character ctx c).1 ≠ .cNoOp) ∧
    (¬codeIdx (hojson_append_character ctx c).1 < 0 →
      loopInvB (hojson_append_character ctx c).2 = true ∧
      (hojson_append_character ctx c).2.stack.length = ctx.stack.length ∧
      (hojson_append_character ctx c).2.state = ctx.state ∧
      (hojson_append_character ctx c).2.depth = ctx.depth ∧
      (hojson_append_character ctx c).2.escape_return_state = ctx.escape_return_state ∧
      (hojson_append_character ctx c).2.error_return_state = ctx.error_return_state ∧
      (hojson_append_character ctx c).2.string_value = ctx.string_value ∧
      (hojson_append_character ctx c).2.integer_value = ctx.integer_value) := by
  have hInv := h
  simp only [loopInvB, Bool.and_eq_true, decide_eq_true_eq, List.all_eq_true] at h
  obtain ⟨⟨⟨⟨hclean, hdepth⟩, hrun⟩, herr⟩, hesc⟩ := h
  simp only [isRunningB, inLoopRange, Bool.and_eq_true, Bool.not_eq_true',
    decide_eq_true_eq, decide_eq_false_iff_not] at hrun
  have hmem : ∀ nd ∈ ctx.stack,
      nd.flags.mustPop = false ∧ nd.flags.incDepth = false ∧ nd.flags.decDepth = false := by
    intro nd hnd
    have := hclean nd hnd
    simp only [nodeClean, Bool.and_eq_true, Bool.not_eq_true'] at this
    exact ⟨this.1.1, this.1.2, this.2⟩
  obtain ⟨nm, sv, iv, fv, bv, vt, ln, col, dep, ini, jp, js, jl, enc, it, bi, buf, bl,
    st, esc, ers, stk, strm, sl, nlc⟩ := ctx
  simp only at hdepth hrun herr hesc hmem hclean hInv ⊢
  cases stk with
  | nil =>
    simp only [hojson_append_character]
    constructor
    · intro hlt
      exact absurd hlt (show ¬(codeIdx Code.cNoOp < 0) by decide)
    · intro _
      exact ⟨hInv, by simp, by simp, by simp, by simp, by simp, by simp, by simp⟩
  | cons top rest =>
    have htopc := hmem top (by simp)
    simp only [hojson_append_character]
    split
    · -- buffer exhausted
      unfold parseOk
      refine ⟨fun _ => ⟨⟨?_, ?_, by simp [isBeginCode], by simp [isEndCode], by simp, by simp,
        by simp, by simp⟩, by simp, by simp⟩,
        fun hgt => absurd (show codeIdx Code.cErrMemory < 0 by decide) hgt⟩
      · simp_all [invB, hojson_stay, isRunningB, inLoopRange]
      · simp [openCount, topPopBit, expectedOpen, hojson_stay, isBeginCode, isEndCode, htopc.1]
    · -- the character fits
      refine ⟨fun hlt => absurd hlt (show ¬(codeIdx Code.cNoOp < 0) by decide),
        fun _ => ⟨?_, by simp, by simp, by simp, by simp, by simp, by simp, by simp⟩⟩
      simp_all [loopInvB, isRunningB, inLoopRange, nodeClean]

theorem append_terminator_spec (ctx : Ctx) (h : loopInvB ctx = true) :
    (codeIdx (hojson_append_terminator ctx).1 < 0 →
      parseOk ctx.stack.length (hojson_append_terminator ctx).1
        (hojson_append_terminator ctx).2 ∧
      (hojson_append_terminator ctx).1 ≠ .cEndOfDocument ∧
      (hojson_append_terminator ctx).1 ≠ .cNoOp) ∧
    (¬codeIdx (hojson_append_terminator ctx).1 < 0 →
      loopInvB (hojson_append_terminator ctx).2 = true ∧
      (hojson_append_terminator ctx).2.stack.length = ctx.stack.length ∧
      (hojson_append_terminator ctx).2.state = ctx.state ∧
      (hojson_append_terminator ctx).2.depth = ctx.depth ∧
      (hojson_append_terminator ctx).2.escape_return_state = ctx.escape_return_state ∧
      (hojson_append_terminator ctx).2.error_return_state = ctx.error_return_state ∧
      (hojson_append_terminator ctx).2.string_value = ctx.string_value ∧
      (hojson_append_terminator ctx).2.integer_value = ctx.integer_value) := by
  have hInv := h
  simp only [loopInvB, Bool.and_eq_true, decide_eq_true_eq, List.all_eq_true] at h
  obtain ⟨⟨⟨⟨hclean, hdepth⟩, hrun⟩, herr⟩, hesc⟩ := h
  simp only [isRunningB, inLoopRange, Bool.and_eq_true, Bool.not_eq_true',
    decide_eq_true_eq, decide_eq_false_iff_not] at hrun
  have hmem : ∀ nd ∈ ctx.stack,
      nd.flags.mustPop = false ∧ nd.flags.incDepth = false ∧ nd.flags.decDepth = false := by
    intro nd hnd
    have := hclean nd hnd
    simp only [nodeClean, Bool.and_eq_true, Bool.not_eq_true'] at this
    exact ⟨this.1.1, this.1.2, this.2⟩
  obtain ⟨nm, sv, iv, fv, bv, vt, ln, col, dep, ini, jp, js, jl, enc, it, bi, buf, bl,
    st, esc, ers, stk, strm, sl, nlc⟩ := ctx
  simp only at hdepth hrun herr hesc hmem hclean hInv ⊢
  cases stk with
  | nil =>
    simp only [hojson_append_terminator]
    constructor
    · intro hlt
      exact absurd hlt (show ¬(codeIdx Code.cNoOp < 0) by decide)
    · intro _
      exact ⟨hInv, by simp, by simp, by simp, by simp, by simp, by simp, by simp⟩
  | cons top rest =>
    have htopc := hmem top (by simp)
    simp only [hojson_append_terminator]
    generalize (if enc ≥ ENC_UTF16BE then (2 : Nat) else 1) = bts
    split
    · -- buffer exhausted
      unfold parseOk
      refine ⟨fun _ => ⟨⟨?_, ?_, by simp [isBeginCode], by simp [isEndCode], by simp, by simp,
        by simp, by simp⟩, by simp, by simp⟩,
        fun hgt => absurd (show codeIdx Code.cErrMemory < 0 by decide) hgt⟩
      · simp_all [invB, hojson_stay, isRunningB, inLoopRange]
      · simp [openCount, topPopBit, expectedOpen, hojson_stay, isBeginCode, isEndCode, htopc.1]
    · -- the terminator fits
      refine ⟨fun hlt => absurd hlt (show ¬(codeIdx Code.cNoOp < 0) by decide),
        fun _ => ⟨?_, by simp, by simp, by simp, by simp, by simp, by simp, by simp⟩⟩
      simp_all [loopInvB, isRunningB, inLoopRange, nodeClean]

theorem nextOk (base ctx' : Ctx) (h : loopInvB base = true)
    (hall : ctx'.stack.all nodeClean = true)
    (hlen : ctx'.stack.length = base.stack.length)
    (hdep : ctx'.depth = base.depth)
    (hstate : isRunningB ctx'.state = true ∨ ctx'.state = .sErrSyn)
    (hers : isRunningB ctx'.error_return_state = true)
    (hesc : isRunningB ctx'.escape_return_state = true) :
    ctx'.stack.all nodeClean = true ∧ ctx'.depth = ctx'.stack.length ∧
    ctx'.stack.length = base.stack.length ∧
    (isRunningB ctx'.state = true ∨ ctx'.state = .sErrSyn) ∧
    isRunningB ctx'.error_return_state = true ∧ isRunningB ctx'.escape_return_state = true := by
  have hd : base.depth = base.stack.length := by
    simp only [loopInvB, Bool.and_eq_true, decide_eq_true_eq] at h
    exact h.1.1.1.2
  exact ⟨hall, by rw [hdep, hlen, hd], hlen, hstate, hers, hesc⟩

theorem invB_mk (x : Ctx) (hall : x.stack.all nodeClean = true)
    (hdep : x.depth = x.stack.length)
    (hdone : x.state = .sDone → x.stack = [])
    (hers : isRunningB x.error_return_state = true)
    (hesc : isRunningB x.escape_return_state = true) : invB x = true := by
  simp only [invB, Bool.and_eq_true, decide_eq_true_eq, List.all_eq_true]
  simp only [List.all_eq_true] at hall
  refine ⟨⟨⟨⟨fun nd hnd => hall nd (List.mem_of_mem_tail hnd), ?_⟩, ?_⟩, hers⟩, hesc⟩
  · cases hstk : x.stack with
    | nil => simp [hstk] at hdep; simp [hdep]
    | cons top rest =>
      have htop := hall top (by simp [hstk])
      simp only [nodeClean, Bool.and_eq_true, Bool.not_eq_true'] at htop
      simp [htop.1.1, htop.1.2, htop.2, hstk ▸ hdep]
  · by_cases hd : x.state = .sDone
    · simp [hdone hd]
    · simp [hd]

theorem openCount_of_clean (x : Ctx) (hall : x.stack.all nodeClean = true) :
    openCount x = x.stack.length := by
  simp only [List.all_eq_true] at hall
  cases hstk : x.stack with
  | nil => simp [openCount, topPopBit, hstk]
  | cons top rest =>
    have htop := hall top (by simp [hstk])
    simp only [nodeClean, Bool.and_eq_true, Bool.not_eq_true'] at htop
    simp [openCount, topPopBit, hstk, htop.1.1]

theorem parseOk_event (k : Nat) (code : Code) (x : Ctx) (hinv : invB x = true)
    (hopen : openCount x = k)
    (hcode : code = .cValue ∨ code = .cName ∨ code = .cErrMemory ∨ code = .cErrEof) :
    parseOk k code x := by
  rcases hcode with rfl | rfl | rfl | rfl <;>
    exact ⟨hinv, by simp [expectedOpen, isBeginCode, isEndCode, hopen],
      by simp [isBeginCode], by simp [isEndCode], by simp, by simp, by simp, by simp⟩

theorem parseOk_syn (k : Nat) (x : Ctx) (hinv : invB x = true)
    (hopen : openCount x = k) (hstate : x.state = .sErrSyn) :
    parseOk k .cErrSyn x :=
  ⟨hinv, by simp [expectedOpen, isBeginCode, isEndCode, hopen],
    by simp [isBeginCode], by simp [isEndCode], fun _ => hstate, by simp, by simp, by simp⟩

theorem append_plain_leaf (ctx : Ctx) (e : HChar) (hInv : loopInvB ctx = true) :
    stepOk ctx.stack.length
      (if codeIdx (hojson_append_character ctx e).1 < 0 then
        Step.ret (hojson_append_character ctx e).1 (hojson_append_character ctx e).2
       else Step.next (hojson_append_character ctx e).2) := by
  obtain ⟨hfail, hok⟩ := append_character_spec ctx e hInv
  rcases hpair : hojson_append_character ctx e with ⟨codeA, ctxA⟩
  rw [hpair] at hfail hok
  by_cases hlt : codeIdx codeA < 0
  · simp only [hpair, if_pos hlt]
    exact stepOk_ret _ _ _ (hfail hlt)
  · simp only [hpair, if_neg hlt]
    obtain ⟨hI, hLen, hSt, hDep, hEsc, hErs, hSv, hIv⟩ := hok hlt
    have hIb := hI
    simp only [loopInvB, Bool.and_eq_true, decide_eq_true_eq] at hIb
    have hb := hInv
    simp only [loopInvB, Bool.and_eq_true] at hb
    refine stepOk_next _ _ ⟨hIb.1.1.1.1, hIb.1.1.1.2, hLen, Or.inl ?_, ?_, ?_⟩
    · rw [hSt]
      exact hb.1.1.2
    · rw [hErs]
      exact hb.1.2
    · rw [hEsc]
      exact hb.2

theorem append_state_leaf (ctx : Ctx) (e : HChar) (st' : HState)
    (hst' : isRunningB st' = true) (hInv : loopInvB ctx = true) :
    stepOk ctx.stack.length
      (if codeIdx (hojson_append_character ctx e).1 < 0 then
        Step.ret (hojson_append_character ctx e).1 (hojson_append_character ctx e).2
       else Step.next { (hojson_append_character ctx e).2 with state := st' }) := by
  obtain ⟨hfail, hok⟩ := append_character_spec ctx e hInv
  rcases hpair : hojson_append_character ctx e with ⟨codeA, ctxA⟩
  rw [hpair] at hfail hok
  by_cases hlt : codeIdx codeA < 0
  · simp only [hpair, if_pos hlt]
    exact stepOk_ret _ _ _ (hfail hlt)
  · simp only [hpair, if_neg hlt]
    obtain ⟨hI, hLen, hSt, hDep, hEsc, hErs, hSv, hIv⟩ := hok hlt
    have hIb := hI
    simp only [loopInvB, Bool.and_eq_true, decide_eq_true_eq] at hIb
    have hb := hInv
    simp only [loopInvB, Bool.and_eq_true] at hb
    exact stepOk_next _ _ ⟨hIb.1.1.1.1, hIb.1.1.1.2, hLen, Or.inl hst',
      by rw [hErs]; exact hb.1.2, by rw [hEsc]; exact hb.2⟩

theorem escape_append_leaf (ctx : Ctx) (e : HChar) (hInv : loopInvB ctx = true) :
    stepOk ctx.stack.length
      (if codeIdx (hojson_append_character ctx e).1 < 0 then
        Step.ret (hojson_append_character ctx e).1 (hojson_append_character ctx e).2
       else Step.next
         { (hojson_append_character ctx e).2 with
             state := (hojson_append_character ctx e).2.escape_return_state
             escape_return_state := .sNone }) := by
  obtain ⟨hfail, hok⟩ := append_character_spec ctx e hInv
  rcases hpair : hojson_append_character ctx e with ⟨codeA, ctxA⟩
  rw [hpair] at hfail hok
  by_cases hlt : codeIdx codeA < 0
  · simp only [hpair, if_pos hlt]
    exact stepOk_ret _ _ _ (hfail hlt)
  · simp only [hpair, if_neg hlt]
    obtain ⟨hI, hLen, hSt, hDep, hEsc, hErs, hSv, hIv⟩ := hok hlt
    have hIb := hI
    simp only [loopInvB, Bool.and_eq_true, decide_eq_true_eq] at hIb
    have hb := hInv
    simp only [loopInvB, Bool.and_eq_true] at hb
    exact stepOk_next _ _ ⟨hIb.1.1.1.1, hIb.1.1.1.2, hLen, Or.inl (by rw [hEsc]; exact hb.2),
      by rw [hErs]; exact hb.1.2, show isRunningB HState.sNone = true by decide⟩

theorem unicode_append_leaf (ctx : Ctx) (e : HChar) (hInv : loopInvB ctx = true) :
    stepOk ctx.stack.length
      (if codeIdx (hojson_append_character ctx e).1 < 0 then
        Step.ret (hojson_append_character ctx e).1 (hojson_append_character ctx e).2
       else Step.next
         { (hojson_append_character ctx e).2 with
             integer_value := 0
             state := (hojson_append_character ctx e).2.escape_return_state
             escape_return_state := .sNone }) := by
  obtain ⟨hfail, hok⟩ := append_character_spec ctx e hInv
  rcases hpair : hojson_append_character ctx e with ⟨codeA, ctxA⟩
  rw [hpair] at hfail hok
  by_cases hlt : codeIdx codeA < 0
  · simp only [hpair, if_pos hlt]
    exact stepOk_ret _ _ _ (hfail hlt)
  · simp only [hpair, if_neg hlt]
    obtain ⟨hI, hLen, hSt, hDep, hEsc, hErs, hSv, hIv⟩ := hok hlt
    have hIb := hI
    simp only [loopInvB, Bool.and_eq_true, decide_eq_true_eq] at hIb
    have hb := hInv
    simp only [loopInvB, Bool.and_eq_true] at hb
    exact stepOk_next _ _ ⟨hIb.1.1.1.1, hIb.1.1.1.2, hLen, Or.inl (by rw [hEsc]; exact hb.2),
      by rw [hErs]; exact hb.1.2, show isRunningB HState.sNone = true by decide⟩

theorem append_upd_leaf (ctx : Ctx) (e : HChar) (f : HFlags → HFlags)
    (hf : ∀ fl, (f fl).mustPop = fl.mustPop ∧ (f fl).incDepth = fl.incDepth ∧
      (f fl).decDepth = fl.decDepth)
    (hInv : loopInvB ctx = true) :
    stepOk ctx.stack.length
      (if codeIdx (hojson_append_character ctx e).1 < 0 then
        Step.ret (hojson_append_character ctx e).1 (hojson_append_character ctx e).2
       else Step.next (updTopFlags (hojson_append_character ctx e).2 f)) := by
  obtain ⟨hfail, hok⟩ := append_character_spec ctx e hInv
  rcases hpair : hojson_append_character ctx e with ⟨codeA, ctxA⟩
  rw [hpair] at hfail hok
  by_cases hlt : codeIdx codeA < 0
  · simp only [hpair, if_pos hlt]
    exact stepOk_ret _ _ _ (hfail hlt)
  · simp only [hpair, if_neg hlt]
    obtain ⟨hI, hLen, hSt, hDep, hEsc, hErs, hSv, hIv⟩ := hok hlt
    have hIb := hI
    simp only [loopInvB, Bool.and_eq_true, decide_eq_true_eq] at hIb
    have hb := hInv
    simp only [loopInvB, Bool.and_eq_true] at hb
    rcases hstk : ctxA.stack with _ | ⟨top, rest⟩
    · simp only [updTopFlags, hstk]
      refine stepOk_next _ _ ⟨?_, ?_, ?_, Or.inl (by rw [hSt]; exact hb.1.1.2),
        by rw [hErs]; exact hb.1.2, by rw [hEsc]; exact hb.2⟩
      · have := hIb.1.1.1.1
        rw [hstk] at this
        simpa [hstk] using this
      · have := hIb.1.1.1.2
        rw [hstk] at this
        simpa [hstk] using this
      · have := hLen
        rw [hstk] at this
        simpa [hstk] using this
    · have hIc := hIb.1.1.1.1
      rw [hstk] at hIc
      simp only [List.all_cons, Bool.and_eq_true] at hIc
      have htc := hIc.1
      simp only [nodeClean, Bool.and_eq_true, Bool.not_eq_true'] at htc
      simp only [updTopFlags, hstk]
      refine stepOk_next _ _ ⟨?_, ?_, ?_, Or.inl (by rw [hSt]; exact hb.1.1.2),
        by rw [hErs]; exact hb.1.2, by rw [hEsc]; exact hb.2⟩
      · simp only [List.all_cons, Bool.and_eq_true]
        refine ⟨?_, hIc.2⟩
        simp only [nodeClean, Bool.and_eq_true, Bool.not_eq_true']
        exact ⟨⟨by rw [(hf top.flags).1]; exact htc.1.1,
          by rw [(hf top.flags).2.1]; exact htc.1.2⟩,
          by rw [(hf top.flags).2.2]; exact htc.2⟩
      · have := hIb.1.1.1.2
        rw [hstk] at this
        simpa using this
      · have := hLen
        rw [hstk] at this
        simpa using this

theorem numberTerminate_spec (ctx : Ctx) (c : HChar) (hInv : loopInvB ctx = true) :
    stepOk ctx.stack.length (numberTerminate ctx c) := by
  have hb := hInv
  simp only [loopInvB, Bool.and_eq_true, decide_eq_true_eq] at hb
  have hallB := hb.1.1.1.1
  have hdep := hb.1.1.1.2
  have herr := hb.1.2
  have hesc := hb.2
  rcases hstk : ctx.stack with _ | ⟨top, rest⟩
  · -- empty stack: the update helpers are no-ops
    rw [hstk] at hallB hdep
    by_cases hfl : ((topNode ctx).flags.decimal || (topNode ctx).flags.exponent) = true <;>
      rcases hsv : ctx.string_value with _ | off <;>
        by_cases hws : isWhitespace c.value = true <;>
          simp only [numberTerminate, numberTermCtx, updTopFlags, topNode, hstk, hojson_stay, hfl, hsv, hws,
            Bool.not_true, Bool.not_false, if_true, if_false, Bool.true_eq_false,
            Bool.false_eq_true, Bool.or_self, Bool.or_false, Bool.false_or, Bool.or_true,
            Bool.true_or, reduceIte] <;>
        exact stepOk_ret _ _ _ ⟨parseOk_event _ _ _
          (invB_mk _ (by simpa [hstk] using hallB) (by simpa [hstk] using hdep)
            (fun h => absurd (show HState.sPostValue = HState.sDone from h) (by decide)) herr hesc)
          (by rw [openCount_of_clean _ (by simpa [hstk] using hallB)]; try simp [hstk])
          (Or.inl rfl), by decide, by decide⟩
  · rw [hstk] at hallB hdep
    have hIc := hallB
    simp only [List.all_cons, Bool.and_eq_true] at hIc
    have htc := hIc.1
    simp only [nodeClean, Bool.and_eq_true, Bool.not_eq_true'] at htc
    have hallup : ({ top with flags := { top.flags with cleanup := true } } :: rest).all
        nodeClean = true := by
      simp only [List.all_cons, Bool.and_eq_true]
      exact ⟨by simp [nodeClean, htc.1.1, htc.1.2, htc.2], hIc.2⟩
    by_cases hd1 : top.flags.decimal = true <;>
      by_cases hd2 : top.flags.exponent = true <;>
      rcases hsv : ctx.string_value with _ | off <;>
        by_cases hws : isWhitespace c.value = true <;>
          simp only [numberTerminate, numberTermCtx, updTopFlags, topNode, hstk, hojson_stay, hd1, hd2, hsv, hws,
            Bool.not_true, Bool.not_false, if_true, if_false, Bool.true_eq_false,
            Bool.false_eq_true, Bool.or_self, Bool.or_false, Bool.false_or, Bool.or_true,
            Bool.true_or, reduceIte] <;>
        exact stepOk_ret _ _ _ ⟨parseOk_event _ _ _
          (invB_mk _ hallup (by simpa using hdep)
            (fun h => absurd (show HState.sPostValue = HState.sDone from h) (by decide)) herr hesc)
          (by rw [openCount_of_clean _ hallup]; try simp)
          (Or.inl rfl), by decide, by decide⟩

theorem retValue_ok (ctx x : Ctx) (hInv : loopInvB ctx = true)
    (hstk : x.stack = (updTopFlags ctx (fun f => { f with cleanup := true })).stack)
    (hdep : x.depth = (updTopFlags ctx (fun f => { f with cleanup := true })).depth)
    (hst : x.state = .sPostValue)
    (hers : x.error_return_state =
      (updTopFlags ctx (fun f => { f with cleanup := true })).error_return_state)
    (hesc : x.escape_return_state =
      (updTopFlags ctx (fun f => { f with cleanup := true })).escape_return_state) :
    parseOk ctx.stack.length .cValue x ∧
      Code.cValue ≠ Code.cEndOfDocument ∧ Code.cValue ≠ Code.cNoOp := by
  have hb := hInv
  simp only [loopInvB, Bool.and_eq_true, decide_eq_true_eq] at hb
  have hallB := hb.1.1.1.1
  have hdepth := hb.1.1.1.2
  have hallx : x.stack.all nodeClean = true := by
    rcases hsc : ctx.stack with _ | ⟨top, rest⟩
    · rw [hstk]
      simpa [updTopFlags, hsc, hsc ▸ hallB]
    · rw [hstk]
      simp only [updTopFlags, hsc]
      rw [hsc] at hallB
      simp only [List.all_cons, Bool.and_eq_true] at hallB ⊢
      exact ⟨by simpa [nodeClean] using hallB.1, hallB.2⟩
  have hlenx : x.stack.length = ctx.stack.length := by
    rcases hsc : ctx.stack with _ | ⟨top, rest⟩ <;> rw [hstk] <;> simp [updTopFlags, hsc]
  refine ⟨⟨invB_mk x hallx (by rw [hdep, updTopFlags_depth, hlenx, hdepth])
      (fun h => absurd (hst ▸ h) (by decide))
      (by rw [hers, updTopFlags_erstate]; exact hb.1.2)
      (by rw [hesc, updTopFlags_escstate]; exact hb.2), ?_,
    by simp [isBeginCode], by simp [isEndCode], by simp, by simp, by simp, by simp⟩,
    by decide, by decide⟩
  rw [openCount_of_clean x hallx, hlenx]
  simp [expectedOpen, isBeginCode, isEndCode]

theorem next_upd_state_ok (ctx : Ctx) (f : HFlags → HFlags) (st' : HState)
    (hst' : isRunningB st' = true)
    (hf : ∀ fl, (f fl).mustPop = fl.mustPop ∧ (f fl).incDepth = fl.incDepth ∧
      (f fl).decDepth = fl.decDepth)
    (hInv : loopInvB ctx = true) :
    stepOk ctx.stack.length (Step.next { updTopFlags ctx f with state := st' }) := by
  have hb := hInv
  simp only [loopInvB, Bool.and_eq_true, decide_eq_true_eq] at hb
  have hallB := hb.1.1.1.1
  have hdepth := hb.1.1.1.2
  rcases hsc : ctx.stack with _ | ⟨top, rest⟩
  · rw [hsc] at hallB hdepth
    simp only [updTopFlags, hsc]
    exact stepOk_next _ _ ⟨by simpa using hallB, by simpa using hdepth, by simp [hsc], Or.inl hst',
      hb.1.2, hb.2⟩
  · rw [hsc] at hallB hdepth
    simp only [updTopFlags, hsc]
    simp only [List.all_cons, Bool.and_eq_true] at hallB
    have htc := hallB.1
    simp only [nodeClean, Bool.and_eq_true, Bool.not_eq_true'] at htc
    refine stepOk_next _ _ ⟨?_, by simpa using hdepth, by simp [hsc], Or.inl hst', hb.1.2, hb.2⟩
    simp only [List.all_cons, Bool.and_eq_true]
    refine ⟨?_, hallB.2⟩
    simp only [nodeClean, Bool.and_eq_true, Bool.not_eq_true']
    exact ⟨⟨by rw [(hf top.flags).1]; exact htc.1.1,
      by rw [(hf top.flags).2.1]; exact htc.1.2⟩,
      by rw [(hf top.flags).2.2]; exact htc.2⟩

set_option maxHeartbeats 2000000 in
theorem parseSwitch_spec (ctx : Ctx) (c : HChar) (hInv : loopInvB ctx = true)
    (hne : 5 ≤ stateIdx ctx.state → ctx.stack ≠ []) :
    stepOk ctx.stack.length (parseSwitch ctx c) := by
  have h := hInv
  simp only [loopInvB, Bool.and_eq_true, decide_eq_true_eq, List.all_eq_true] at h
  obtain ⟨⟨⟨⟨hclean, hdepth⟩, hrun⟩, herr⟩, hesc⟩ := h
  have hallB : ctx.stack.all nodeClean = true := by
    simp only [loopInvB, Bool.and_eq_true] at hInv
    exact hInv.1.1.1.1
  have hrunB : isRunningB ctx.state = true := by
    simp only [loopInvB, Bool.and_eq_true] at hInv
    exact hInv.1.1.2
  simp only [isRunningB, inLoopRange, Bool.and_eq_true, Bool.not_eq_true',
    decide_eq_true_eq, decide_eq_false_iff_not] at hrun
  have hmem : ∀ nd ∈ ctx.stack,
      nd.flags.mustPop = false ∧ nd.flags.incDepth = false ∧ nd.flags.decDepth = false := by
    intro nd hnd
    have := hclean nd hnd
    simp only [nodeClean, Bool.and_eq_true, Bool.not_eq_true'] at this
    exact ⟨this.1.1, this.1.2, this.2⟩
  cases hst : ctx.state with
  | sErrInternal => exact absurd hrun.1.1 (by rw [hst]; decide)
  | sErrMemory => exact absurd hrun.1.1 (by rw [hst]; decide)
  | sErrEof => exact absurd hrun.1.1 (by rw [hst]; decide)
  | sErrMismatch => exact absurd hrun.1.1 (by rw [hst]; decide)
  | sErrSyn => exact absurd hrun.1.1 (by rw [hst]; decide)
  | sDone => exact absurd hst hrun.2
  | sNone =>
    simp only [parseSwitch, hst]
    split
    · next hcond => exact begin_token_spec ctx c.value hInv (by simpa using hcond)
    · split
      · exact stepOk_next _ _ ⟨hallB, hdepth, rfl,
          Or.inl (show isRunningB HState.sUtf8Bom1 = true by decide), herr, hesc⟩
      · split
        · exact stepOk_next _ _ ⟨hallB, hdepth, rfl,
            Or.inl (show isRunningB HState.sUtf16beBom = true by decide), herr, hesc⟩
        · split
          · exact stepOk_next _ _ ⟨hallB, hdepth, rfl,
              Or.inl (show isRunningB HState.sUtf16leBom = true by decide), herr, hesc⟩
          · split
            · exact stepOk_next _ _ ⟨hallB, hdepth, rfl, Or.inr rfl, herr, hesc⟩
            · exact stepOk_next _ _ ⟨hallB, hdepth, rfl,
                Or.inl hrunB, herr, hesc⟩
  | sUtf8Bom1 =>
    simp only [parseSwitch, hst]
    split
    · exact stepOk_next _ _ ⟨hallB, hdepth, rfl,
        Or.inl (show isRunningB HState.sUtf8Bom2 = true by decide), herr, hesc⟩
    · exact stepOk_next _ _ ⟨hallB, hdepth, rfl, Or.inr rfl, herr, hesc⟩
  | sUtf8Bom2 =>
    simp only [parseSwitch, hst]
    split
    · exact stepOk_next _ _ ⟨hallB, hdepth, rfl,
        Or.inl (show isRunningB HState.sNone = true by decide), herr, hesc⟩
    · exact stepOk_next _ _ ⟨hallB, hdepth, rfl, Or.inr rfl, herr, hesc⟩
  | sUtf16beBom =>
    simp only [parseSwitch, hst]
    split
    · exact stepOk_next _ _ ⟨hallB, hdepth, rfl,
        Or.inl (show isRunningB HState.sNone = true by decide), herr, hesc⟩
    · exact stepOk_next _ _ ⟨hallB, hdepth, rfl, Or.inr rfl, herr, hesc⟩
  | sUtf16leBom =>
    simp only [parseSwitch, hst]
    split
    · exact stepOk_next _ _ ⟨hallB, hdepth, rfl,
        Or.inl (show isRunningB HState.sNone = true by decide), herr, hesc⟩
    · exact stepOk_next _ _ ⟨hallB, hdepth, rfl, Or.inr rfl, herr, hesc⟩
  | sNameExpected =>
    have hne2 : ctx.stack ≠ [] := by rw [hst] at hne; exact hne (by decide)
    simp only [parseSwitch, hst]
    split
    · exact next_upd_state_ok ctx (fun f => { f with hasName := true }) .sName (by decide)
        (fun fl => ⟨rfl, rfl, rfl⟩) hInv
    · split
      · exact end_token_spec ctx c.value hInv hne2
      · split
        · exact stepOk_next _ _ ⟨hallB, hdepth, rfl, Or.inr rfl, herr, hesc⟩
        · exact stepOk_next _ _ ⟨hallB, hdepth, rfl,
            Or.inl hrunB, herr, hesc⟩
  | sName =>
    simp only [parseSwitch, hst]
    split
    · obtain ⟨hfail, hok⟩ := append_terminator_spec ctx hInv
      rcases hpair : hojson_append_terminator ctx with ⟨codeT, ctxT⟩
      rw [hpair] at hfail hok
      by_cases hlt : codeIdx codeT < 0
      · simp only [hpair, if_pos hlt]
        exact stepOk_ret _ _ _ (hfail hlt)
      · simp only [hpair, if_neg hlt]
        obtain ⟨hI, hLen, hSt, hDep, hEsc, hErs, hSv, hIv⟩ := hok hlt
        have hIb := hI
        simp only [loopInvB, Bool.and_eq_true, decide_eq_true_eq] at hIb
        refine stepOk_ret _ _ _ ⟨parseOk_event _ _ _ (invB_mk _ hIb.1.1.1.1 hIb.1.1.1.2
            (fun h => absurd (show HState.sPostName = HState.sDone from h) (by decide))
            (by rw [hErs]; exact herr) (by rw [hEsc]; exact hesc)) ?_
          (Or.inr (Or.inl rfl)), by decide, by decide⟩
        show openCount ctxT = ctx.stack.length
        rw [openCount_of_clean ctxT hIb.1.1.1.1]
        exact hLen
    · split
      · exact stepOk_next _ _ ⟨hallB, hdepth, rfl,
          Or.inl (show isRunningB HState.sEscape = true by decide), herr,
          show isRunningB HState.sName = true by decide⟩
      · exact append_plain_leaf ctx c hInv
  | sPostName =>
    simp only [parseSwitch, hst]
    split
    · exact stepOk_next _ _ ⟨hallB, hdepth, rfl,
        Or.inl (show isRunningB HState.sValueExpected = true by decide), herr, hesc⟩
    · split
      · exact stepOk_next _ _ ⟨hallB, hdepth, rfl, Or.inr rfl, herr, hesc⟩
      · exact stepOk_next _ _ ⟨hallB, hdepth, rfl,
          Or.inl hrunB, herr, hesc⟩
  | sValueExpected =>
    have hne2 : ctx.stack ≠ [] := by rw [hst] at hne; exact hne (by decide)
    simp only [parseSwitch, hst]
    split
    · exact stepOk_next _ _ ⟨hallB, hdepth, rfl,
        Or.inl (show isRunningB HState.sStringValue = true by decide), herr, hesc⟩
    · split
      · have hInvB : loopInvB { ctx with
            string_value := some ((topNode ctx).endOff + 1)
            state := HState.sValueExpected } = true := by
          have hb := hInv
          simp only [loopInvB, Bool.and_eq_true, decide_eq_true_eq] at hb ⊢
          exact ⟨⟨⟨⟨hb.1.1.1.1, hb.1.1.1.2⟩, by decide⟩, hb.1.2⟩, hb.2⟩
        exact append_state_leaf { ctx with
            string_value := some ((topNode ctx).endOff + 1)
            state := HState.sValueExpected } c .sNumberValue (by decide) hInvB
      · split
        · exact stepOk_next _ _ ⟨hallB, hdepth, rfl,
            Or.inl (show isRunningB HState.sTrueT = true by decide), herr, hesc⟩
        · split
          · exact stepOk_next _ _ ⟨hallB, hdepth, rfl,
              Or.inl (show isRunningB HState.sFalseF = true by decide), herr, hesc⟩
          · split
            · exact stepOk_next _ _ ⟨hallB, hdepth, rfl,
                Or.inl (show isRunningB HState.sNullN = true by decide), herr, hesc⟩
            · split
              · next hcond => exact begin_token_spec ctx c.value hInv (by simpa using hcond)
              · split
                · exact end_token_spec ctx c.value hInv hne2
                · split
                  · exact stepOk_next _ _ ⟨hallB, hdepth, rfl, Or.inr rfl, herr, hesc⟩
                  · exact stepOk_next _ _ ⟨hallB, hdepth, rfl,
                      Or.inl hrunB,
                      herr, hesc⟩
  | sStringValue =>
    simp only [parseSwitch, hst]
    split
    · exact retValue_ok ctx _ hInv rfl rfl rfl rfl rfl
    · split
      · exact stepOk_next _ _ ⟨hallB, hdepth, rfl,
          Or.inl (show isRunningB HState.sEscape = true by decide), herr,
          show isRunningB HState.sStringValue = true by decide⟩
      · exact append_plain_leaf ctx c hInv
  | sEscape =>
    simp only [parseSwitch, hst]
    split
    · exact stepOk_next _ _ ⟨hallB, hdepth, rfl,
        Or.inl (show isRunningB HState.sUnicode1 = true by decide), herr, hesc⟩
    · by_cases h34 : c.value = 34
      · simp only [if_pos h34]
        exact escape_append_leaf ctx (hojson_encode_character 34 ctx.encoding) hInv
      · by_cases h92 : c.value = 92
        · simp only [if_neg h34, if_pos h92]
          exact escape_append_leaf ctx (hojson_encode_character 92 ctx.encoding) hInv
        · by_cases h47 : c.value = 47
          · simp only [if_neg h34, if_neg h92, if_pos h47]
            exact escape_append_leaf ctx (hojson_encode_character 47 ctx.encoding) hInv
          · by_cases h98 : c.value = 98
            · simp only [if_neg h34, if_neg h92, if_neg h47, if_pos h98]
              exact escape_append_leaf ctx (hojson_encode_character 8 ctx.encoding) hInv
            · by_cases h102 : c.value = 102
              · simp only [if_neg h34, if_neg h92, if_neg h47, if_neg h98, if_pos h102]
                exact escape_append_leaf ctx (hojson_encode_character 12 ctx.encoding) hInv
              · by_cases h110 : c.value = 110
                · simp only [if_neg h34, if_neg h92, if_neg h47, if_neg h98, if_neg h102,
                    if_pos h110]
                  exact escape_append_leaf ctx (hojson_encode_character 10 ctx.encoding) hInv
                · by_cases h114 : c.value = 114
                  · simp only [if_neg h34, if_neg h92, if_neg h47, if_neg h98, if_neg h102,
                      if_neg h110, if_pos h114]
                    exact escape_append_leaf ctx (hojson_encode_character 13 ctx.encoding) hInv
                  · by_cases h116 : c.value = 116
                    · simp only [if_neg h34, if_neg h92, if_neg h47, if_neg h98, if_neg h102,
                        if_neg h110, if_neg h114, if_pos h116]
                      exact escape_append_leaf ctx (hojson_encode_character 9 ctx.encoding) hInv
                    · simp only [if_neg h34, if_neg h92, if_neg h47, if_neg h98, if_neg h102,
                        if_neg h110, if_neg h114, if_neg h116]
                      exact stepOk_next _ _ ⟨hallB, hdepth, rfl, Or.inr rfl, herr, hesc⟩
  | sUnicode1 =>
    simp only [parseSwitch, hst]
    split
    · exact stepOk_next _ _ ⟨hallB, hdepth, rfl,
        Or.inl (show isRunningB HState.sUnicode2 = true by decide), herr, hesc⟩
    · exact stepOk_next _ _ ⟨hallB, hdepth, rfl, Or.inr rfl, herr, hesc⟩
  | sUnicode2 =>
    simp only [parseSwitch, hst]
    split
    · exact stepOk_next _ _ ⟨hallB, hdepth, rfl,
        Or.inl (show isRunningB HState.sUnicode3 = true by decide), herr, hesc⟩
    · exact stepOk_next _ _ ⟨hallB, hdepth, rfl, Or.inr rfl, herr, hesc⟩
  | sUnicode3 =>
    simp only [parseSwitch, hst]
    split
    · exact stepOk_next _ _ ⟨hallB, hdepth, rfl,
        Or.inl (show isRunningB HState.sUnicode4 = true by decide), herr, hesc⟩
    · exact stepOk_next _ _ ⟨hallB, hdepth, rfl, Or.inr rfl, herr, hesc⟩
  | sUnicode4 =>
    simp only [parseSwitch, hst]
    split
    · have hInvB : loopInvB { ctx with
          integer_value := ctx.integer_value + hojson_hex_character_to_decimal c.value * 1
          state := HState.sUnicode4 } = true := by
        have hb := hInv
        simp only [loopInvB, Bool.and_eq_true, decide_eq_true_eq] at hb ⊢
        exact ⟨⟨⟨⟨hb.1.1.1.1, hb.1.1.1.2⟩, by decide⟩, hb.1.2⟩, hb.2⟩
      exact unicode_append_leaf
        { ctx with
            integer_value := ctx.integer_value + hojson_hex_character_to_decimal c.value * 1
            state := HState.sUnicode4 }
        (hojson_encode_character
          (ctx.integer_value + hojson_hex_character_to_decimal c.value * 1).toNat
          ctx.encoding) hInvB
    · exact stepOk_next _ _ ⟨hallB, hdepth, rfl, Or.inr rfl, herr, hesc⟩
  | sNumberValue =>
    simp only [parseSwitch, hst]
    split
    · exact append_plain_leaf ctx c hInv
    · split
      · split
        · exact stepOk_next _ _ ⟨hallB, hdepth, rfl, Or.inr rfl, herr, hesc⟩
        · exact append_upd_leaf ctx c (fun f => { f with decimal := true })
            (fun fl => ⟨rfl, rfl, rfl⟩) hInv
      · split
        · split
          · exact stepOk_next _ _ ⟨hallB, hdepth, rfl, Or.inr rfl, herr, hesc⟩
          · exact append_upd_leaf ctx c (fun f => { f with exponent := true })
              (fun fl => ⟨rfl, rfl, rfl⟩) hInv
        · split
          · split
            · exact stepOk_next _ _ ⟨hallB, hdepth, rfl, Or.inr rfl, herr, hesc⟩
            · split
              · exact stepOk_next _ _ ⟨hallB, hdepth, rfl, Or.inr rfl, herr, hesc⟩
              · exact append_upd_leaf ctx c (fun f => { f with plusOrMinus := true })
                  (fun fl => ⟨rfl, rfl, rfl⟩) hInv
          · split
            · exact numberTerminate_spec ctx c hInv
            · exact stepOk_next _ _ ⟨hallB, hdepth, rfl, Or.inr rfl, herr, hesc⟩
  | sTrueT =>
    simp only [parseSwitch, hst]
    split
    · exact stepOk_next _ _ ⟨hallB, hdepth, rfl,
        Or.inl (show isRunningB HState.sTrueR = true by decide), herr, hesc⟩
    · exact stepOk_next _ _ ⟨hallB, hdepth, rfl, Or.inr rfl, herr, hesc⟩
  | sTrueR =>
    simp only [parseSwitch, hst]
    split
    · exact stepOk_next _ _ ⟨hallB, hdepth, rfl,
        Or.inl (show isRunningB HState.sTrueU = true by decide), herr, hesc⟩
    · exact stepOk_next _ _ ⟨hallB, hdepth, rfl, Or.inr rfl, herr, hesc⟩
  | sTrueU =>
    simp only [parseSwitch, hst]
    split
    · exact retValue_ok ctx _ hInv rfl rfl rfl rfl rfl
    · exact stepOk_next _ _ ⟨hallB, hdepth, rfl, Or.inr rfl, herr, hesc⟩
  | sFalseF =>
    simp only [parseSwitch, hst]
    split
    · exact stepOk_next _ _ ⟨hallB, hdepth, rfl,
        Or.inl (show isRunningB HState.sFalseA = true by decide), herr, hesc⟩
    · exact stepOk_next _ _ ⟨hallB, hdepth, rfl, Or.inr rfl, herr, hesc⟩
  | sFalseA =>
    simp only [parseSwitch, hst]
    split
    · exact stepOk_next _ _ ⟨hallB, hdepth, rfl,
        Or.inl (show isRunningB HState.sFalseL = true by decide), herr, hesc⟩
    · exact stepOk_next _ _ ⟨hallB, hdepth, rfl, Or.inr rfl, herr, hesc⟩
  | sFalseL =>
    simp only [parseSwitch, hst]
    split
    · exact stepOk_next _ _ ⟨hallB, hdepth, rfl,
        Or.inl (show isRunningB HState.sFalseS = true by decide), herr, hesc⟩
    · exact stepOk_next _ _ ⟨hallB, hdepth, rfl, Or.inr rfl, herr, hesc⟩
  | sFalseS =>
    simp only [parseSwitch, hst]
    split
    · exact retValue_ok ctx _ hInv rfl rfl rfl rfl rfl
    · exact stepOk_next _ _ ⟨hallB, hdepth, rfl, Or.inr rfl, herr, hesc⟩
  | sNullN =>
    simp only [parseSwitch, hst]
    split
    · exact stepOk_next _ _ ⟨hallB, hdepth, rfl,
        Or.inl (show isRunningB HState.sNullU = true by decide), herr, hesc⟩
    · exact stepOk_next _ _ ⟨hallB, hdepth, rfl, Or.inr rfl, herr, hesc⟩
  | sNullU =>
    simp only [parseSwitch, hst]
    split
    · exact stepOk_next _ _ ⟨hallB, hdepth, rfl,
        Or.inl (show isRunningB HState.sNullL = true by decide), herr, hesc⟩
    · exact stepOk_next _ _ ⟨hallB, hdepth, rfl, Or.inr rfl, herr, hesc⟩
  | sNullL =>
    simp only [parseSwitch, hst]
    split
    · exact retValue_ok ctx _ hInv rfl rfl rfl rfl rfl
    · exact stepOk_next _ _ ⟨hallB, hdepth, rfl, Or.inr rfl, herr, hesc⟩
  | sPostValue =>
    have hne2 : ctx.stack ≠ [] := by rw [hst] at hne; exact hne (by decide)
    simp only [parseSwitch, hst]
    split
    · exact end_token_spec ctx c.value hInv hne2
    · split
      · split
        · exact stepOk_next _ _ ⟨hallB, hdepth, rfl, Or.inr rfl, herr, hesc⟩
        · split
          · exact next_upd_state_ok ctx (fun f => { f with comma := true }) .sValueExpected
              (by decide) (fun fl => ⟨rfl, rfl, rfl⟩) hInv
          · exact next_upd_state_ok ctx (fun f => { f with comma := true }) .sNameExpected
              (by decide) (fun fl => ⟨rfl, rfl, rfl⟩) hInv
      · split
        · exact stepOk_next _ _ ⟨hallB, hdepth, rfl, Or.inr rfl, herr, hesc⟩
        · exact stepOk_next _ _ ⟨hallB, hdepth, rfl,
            Or.inl hrunB, herr, hesc⟩

theorem loopPosCtx_fields (ctx : Ctx) (c : HChar) :
    (loopPosCtx ctx c).stack = ctx.stack ∧ (loopPosCtx ctx c).depth = ctx.depth ∧
    (loopPosCtx ctx c).state = ctx.state ∧
    (loopPosCtx ctx c).error_return_state = ctx.error_return_state ∧
    (loopPosCtx ctx c).escape_return_state = ctx.escape_return_state ∧
    (loopPosCtx ctx c).string_value = ctx.string_value ∧
    (loopPosCtx ctx c).buffer = ctx.buffer ∧
    (loopPosCtx ctx c).iterator = ctx.iterator + sizeSub c.bytes ctx.stream_length ∧
    (loopPosCtx ctx c).bytes_iterated = sizeSub c.bytes ctx.stream_length := by
  simp only [loopPosCtx]
  split <;> simp

theorem loopPosCtx_inv (ctx : Ctx) (c : HChar) (h : loopInvB ctx = true) :
    loopInvB (loopPosCtx ctx c) = true := by
  obtain ⟨h1, h2, h3, h4, h5⟩ := loopPosCtx_fields ctx c
  simp only [loopInvB, h1, h2, h3, h4, h5]
  simpa only [loopInvB] using h

theorem running_range : ∀ s : HState, isRunningB s = true →
    0 ≤ stateIdx s ∧ stateIdx s ≤ stateIdx HState.sDone := by
  intro s
  cases s <;> decide

theorem parseLoop_spec : ∀ (fuel : Nat) (ctx : Ctx), loopInvB ctx = true →
    (parseLoop fuel ctx).1 = .cNoOp ∨
    (parseOk ctx.stack.length (parseLoop fuel ctx).1 (parseLoop fuel ctx).2 ∧
     (parseLoop fuel ctx).1 ≠ .cEndOfDocument) := by
  intro fuel
  induction fuel with
  | zero =>
    intro ctx hInv
    exact Or.inl rfl
  | succ n ih =>
    intro ctx hInv
    have hb := hInv
    simp only [loopInvB, Bool.and_eq_true, decide_eq_true_eq] at hb
    by_cases hguard : stateIdx HState.sNameExpected ≤ stateIdx ctx.state ∧ ctx.stack = []
    · right
      simp only [parseLoop]
      rw [if_pos hguard]
      refine ⟨⟨invB_mk { ctx with state := HState.sErrInternal } hb.1.1.1.1 hb.1.1.1.2
          (fun h => absurd (show HState.sErrInternal = HState.sDone from h) (by decide))
          hb.1.2 hb.2, ?_, by simp [isBeginCode], by simp [isEndCode], by simp, by simp,
          fun _ => rfl, by simp⟩,
        show Code.cErrInternal ≠ Code.cEndOfDocument by decide⟩
      rw [openCount_of_clean { ctx with state := HState.sErrInternal } hb.1.1.1.1]
      simp [expectedOpen, isBeginCode, isEndCode]
    · by_cases heof : (loopChar ctx).value = 0 ∨ (loopChar ctx).value = UINT32_MAX
      · right
        simp only [parseLoop]
        rw [if_neg hguard, if_pos heof]
        refine ⟨⟨invB_mk (loopEofCtx ctx) hb.1.1.1.1 hb.1.1.1.2
            (fun h => absurd (show HState.sErrEof = HState.sDone from h) (by decide))
            hb.1.1.2 hb.2, ?_, by simp [isBeginCode], by simp [isEndCode], by simp, by simp,
            by simp, by simp⟩,
          show Code.cErrEof ≠ Code.cEndOfDocument by decide⟩
        rw [openCount_of_clean (loopEofCtx ctx) hb.1.1.1.1]
        simp [loopEofCtx, expectedOpen, isBeginCode, isEndCode]
      · have hfields := loopPosCtx_fields ctx (loopChar ctx)
        have hInv2 : loopInvB (loopPosCtx ctx (loopChar ctx)) = true :=
          loopPosCtx_inv ctx (loopChar ctx) hInv
        have hne2 : 5 ≤ stateIdx (loopPosCtx ctx (loopChar ctx)).state →
            (loopPosCtx ctx (loopChar ctx)).stack ≠ [] := by
          rw [hfields.2.2.1, hfields.1]
          intro h5 hnil
          refine hguard ⟨?_, hnil⟩
          have h55 : stateIdx HState.sNameExpected = 5 := rfl
          rw [h55]
          exact h5
        have hstep := parseSwitch_spec (loopPosCtx ctx (loopChar ctx)) (loopChar ctx)
          hInv2 hne2
        rcases hres : parseSwitch (loopPosCtx ctx (loopChar ctx)) (loopChar ctx) with
          ⟨code, ctx'⟩ | ⟨ctx'⟩
        · have heq2 : parseLoop (n + 1) ctx = (code, ctx') := by
            simp only [parseLoop]
            rw [if_neg hguard, if_neg heof, hres]
          rw [heq2]
          rw [hres] at hstep
          simp only [stepOk] at hstep
          rw [hfields.1] at hstep
          exact Or.inr ⟨hstep.1, hstep.2.1⟩
        · have heq2 : parseLoop (n + 1) ctx =
              if 0 ≤ stateIdx ctx'.state ∧ stateIdx ctx'.state ≤ stateIdx HState.sDone then
                parseLoop n ctx'
              else (Code.cErrSyn, ctx') := by
            simp only [parseLoop]
            rw [if_neg hguard, if_neg heof, hres]
          rw [heq2]
          rw [hres] at hstep
          simp only [stepOk] at hstep
          rw [hfields.1] at hstep
          obtain ⟨hall2, hdep2, hlen2, hstate2, hers2, hesc2⟩ := hstep
          by_cases hrange : 0 ≤ stateIdx ctx'.state ∧ stateIdx ctx'.state ≤
              stateIdx HState.sDone
          · rw [if_pos hrange]
            have hrun2 : isRunningB ctx'.state = true := by
              rcases hstate2 with h | h
              · exact h
              · exact absurd (h ▸ hrange.1) (by decide)
            have hInv3 : loopInvB ctx' = true := by
              simp only [loopInvB, Bool.and_eq_true, decide_eq_true_eq]
              exact ⟨⟨⟨⟨hall2, hdep2⟩, hrun2⟩, hers2⟩, hesc2⟩
            rcases ih ctx' hInv3 with h | ⟨hok, hne3⟩
            · exact Or.inl h
            · refine Or.inr ⟨?_, hne3⟩
              rw [← hlen2]
              exact hok
          · rw [if_neg hrange]
            right
            have hsyn : ctx'.state = .sErrSyn := by
              rcases hstate2 with h | h
              · exact absurd (running_range ctx'.state h) hrange
              · exact h
            refine ⟨parseOk_syn ctx.stack.length ctx' (invB_mk ctx' hall2 hdep2
                (fun hd => absurd (hsyn.symm.trans hd) (by decide)) hers2 hesc2) ?_ hsyn,
              show Code.cErrSyn ≠ Code.cEndOfDocument by decide⟩
            rw [openCount_of_clean ctx' hall2]
            exact hlen2

theorem entryOk_next (ctx ctx1 : Ctx)
    (h : ctx1.stack.all nodeClean = true ∧ ctx1.depth = ctx1.stack.length ∧
      openCount ctx1 = openCount ctx ∧ ctx1.state = ctx.state ∧
      ctx1.error_return_state = ctx.error_return_state ∧
      ctx1.escape_return_state = ctx.escape_return_state ∧
      ctx1.iterator = ctx.iterator ∧
      (ctx1.state = .sDone → ctx1.stack = [])) :
    entryOk ctx (Step.next ctx1) := h

theorem entryOk_ret (ctx : Ctx) (code : Code) (ctx' : Ctx)
    (h : parseOk (openCount ctx) code ctx' ∧ code = .cEndOfDocument ∧
      ctx.state = .sPostValue) :
    entryOk ctx (Step.ret code ctx') := h

theorem entryCleanup_fields (ctx : Ctx) :
    (entryCleanup ctx).stack.length = ctx.stack.length ∧
    (entryCleanup ctx).stack.all nodeClean = ctx.stack.all nodeClean ∧
    (entryCleanup ctx).depth = ctx.depth ∧
    (entryCleanup ctx).state = ctx.state ∧
    (entryCleanup ctx).error_return_state = ctx.error_return_state ∧
    (entryCleanup ctx).escape_return_state = ctx.escape_return_state ∧
    (entryCleanup ctx).iterator = ctx.iterator := by
  rcases h : ctx.stack with _ | ⟨top, rest⟩
  · simp [entryCleanup, h]
  · by_cases hcl : top.flags.cleanup = true
    · by_cases hoff : top.dataOff < top.endOff
      · simp [entryCleanup, h, hcl, hoff, nodeClean]
      · simp [entryCleanup, h, hcl, hoff, nodeClean]
    · simp [entryCleanup, h, hcl]

theorem entry_spec (ctx : Ctx) (hInv : invB ctx = true) :
    entryOk ctx (hojson_entry ctx) := by
  have hb := hInv
  simp only [invB, Bool.and_eq_true, decide_eq_true_eq] at hb
  obtain ⟨⟨⟨⟨htail, hmid⟩, hdone⟩, hers⟩, hesc⟩ := hb
  rcases hstk : ctx.stack with _ | ⟨top, rest⟩
  · rw [hstk] at hmid
    have hentry : hojson_entry ctx = Step.next ctx := by
      simp only [hojson_entry, hstk]
    rw [hentry]
    refine entryOk_next ctx ctx
      ⟨by rw [hstk]; rfl, ?_, rfl, rfl, rfl, rfl, rfl, fun _ => hstk⟩
    rw [hstk]
    simpa using hmid
  · rw [hstk] at hmid htail
    simp only [List.length_cons, beq_iff_eq, Bool.and_eq_true, Bool.not_eq_true',
      Bool.and_eq_false_iff, decide_eq_true_eq] at hmid
    obtain ⟨⟨⟨hdep, hpd⟩, hnand⟩, hps⟩ := hmid
    have hnd : ctx.state ≠ .sDone := by
      intro h
      rw [hstk, h] at hdone
      simp at hdone
    have htailclean : rest.all nodeClean = true := by
      simpa [hstk] using htail
    by_cases hpop : top.flags.mustPop = true
    · -- deferred pop (state is POST_VALUE, decrement also pending)
      have hdec : top.flags.decDepth = true := by
        rw [← hpd]
        exact hpop
      have hinc : top.flags.incDepth = false := by
        rcases hnand with h | h
        · exact h
        · rw [h] at hdec
          exact absurd hdec (by decide)
      have hinc' : ¬top.flags.incDepth = true := by
        simp [hinc]
      have e1 : entryInc ctx = ctx := by
        simp [entryInc, hstk, hinc]
      have e2 : entryDec ctx =
          { ctx with depth := ctx.depth - 1,
                     stack := { top with flags := { top.flags with decDepth := false } }
                       :: rest } := by
        simp [entryDec, hstk, hdec]
      rcases hrest : rest with _ | ⟨r, rs⟩
      · have e3 : hojson_entry ctx = Step.ret .cEndOfDocument
            { ctx with depth := ctx.depth - 1
                       buffer := zeroRange ctx.buffer top.base
                         (max NODE_SIZE (top.endOff + 1 - top.base))
                       stack := []
                       state := .sDone } := by
          simp [hojson_entry, hstk, e1, e2, entryPopCheck, hrest, hpop, hojson_pop_stack]
        rw [e3]
        have hsv : ctx.state = .sPostValue := by
          rcases (Bool.or_eq_true _ _).mp hps with h | h
          · rw [hpop] at h
            exact absurd h (by decide)
          · exact of_decide_eq_true h
        refine entryOk_ret ctx .cEndOfDocument _ ⟨⟨?_, ?_, by simp [isBeginCode],
          by simp [isEndCode], by simp, by simp, by simp, fun _ => rfl⟩, rfl, hsv⟩
        · have hd1 : ctx.depth = 1 := by
            rw [hrest] at hdep
            simpa [hinc] using hdep
          simp only [invB, Bool.and_eq_true, decide_eq_true_eq]
          refine ⟨⟨⟨⟨by simp, by simp [hd1]⟩, by simp⟩, hers⟩, hesc⟩
        · have hopen : openCount ctx = 0 := by
            simp [openCount, topPopBit, hstk, hrest, hpop]
          rw [hopen]
          simp [openCount, topPopBit, expectedOpen, isBeginCode, isEndCode]
      · have e3 : hojson_entry ctx = Step.next (entryCleanup
            { ctx with depth := ctx.depth - 1
                       buffer := zeroRange ctx.buffer top.base
                         (max NODE_SIZE (top.endOff + 1 - top.base))
                       stack := r :: rs }) := by
          simp [hojson_entry, hstk, e1, e2, entryPopCheck, hrest, hpop, hojson_pop_stack]
        rw [e3]
        obtain ⟨f1, f2, f3, f4, f5, f6, f7⟩ := entryCleanup_fields
          { ctx with depth := ctx.depth - 1
                     buffer := zeroRange ctx.buffer top.base
                       (max NODE_SIZE (top.endOff + 1 - top.base))
                     stack := r :: rs }
        have hallc : (entryCleanup
            { ctx with depth := ctx.depth - 1
                       buffer := zeroRange ctx.buffer top.base
                         (max NODE_SIZE (top.endOff + 1 - top.base))
                       stack := r :: rs }).stack.all nodeClean = true := by
          rw [f2]
          simpa [hrest] using htailclean
        refine entryOk_next ctx _ ⟨hallc, ?_, ?_, f4, f5, f6, by rw [f7], ?_⟩
        · rw [f3, f1]
          show ctx.depth - 1 = (r :: rs).length
          rw [hrest] at hdep
          simp only [if_neg hinc', List.length_cons, Nat.add_zero] at hdep
          simp only [List.length_cons]
          omega
        · rw [openCount_of_clean _ hallc, f1]
          simp [openCount, topPopBit, hstk, hrest, hpop]
        · rw [f4]
          intro h
          exact absurd h hnd
    · -- no pop pending
      have hpopf : top.flags.mustPop = false := by
        simpa using hpop
      have hdec : top.flags.decDepth = false := by
        rw [← hpd]
        exact hpopf
      by_cases hinc : top.flags.incDepth = true
      · have e1 : entryInc ctx =
            { ctx with depth := ctx.depth + 1,
                       stack := { top with flags := { top.flags with incDepth := false } }
                         :: rest } := by
          simp [entryInc, hstk, hinc]
        have e2 : entryDec (entryInc ctx) = entryInc ctx := by
          rw [e1]
          simp [entryDec, hdec]
        have e4 : hojson_entry ctx = Step.next (entryCleanup (entryInc ctx)) := by
          simp only [hojson_entry, hstk, e2]
          rw [e1]
          simp [entryPopCheck, hpopf]
        rw [e4]
        obtain ⟨f1, f2, f3, f4, f5, f6, f7⟩ := entryCleanup_fields (entryInc ctx)
        have hallc : (entryCleanup (entryInc ctx)).stack.all nodeClean = true := by
          rw [f2, e1]
          simp only [List.all_cons, Bool.and_eq_true]
          exact ⟨by simp [nodeClean, hpopf, hdec], htailclean⟩
        refine entryOk_next ctx _ ⟨hallc, ?_, ?_, ?_, ?_, ?_, by rw [f7, e1], ?_⟩
        · rw [f3, f1, e1]
          simp only [if_pos hinc] at hdep
          show ctx.depth + 1 = _
          simpa using hdep
        · rw [openCount_of_clean _ hallc, f1, e1]
          simp [openCount, topPopBit, hstk, hpopf]
        · rw [f4, e1]
        · rw [f5, e1]
        · rw [f6, e1]
        · rw [f4, e1]
          intro h
          exact absurd h hnd
      · have e1 : entryInc ctx = ctx := by
          simp [entryInc, hstk, hinc]
        have e2 : entryDec ctx = ctx := by
          simp [entryDec, hstk, hdec]
        have e4 : hojson_entry ctx = Step.next (entryCleanup ctx) := by
          simp only [hojson_entry, hstk, e1, e2]
          simp [entryPopCheck, hstk, hpopf]
        rw [e4]
        obtain ⟨f1, f2, f3, f4, f5, f6, f7⟩ := entryCleanup_fields ctx
        have hallc : (entryCleanup ctx).stack.all nodeClean = true := by
          rw [f2, hstk]
          simp only [List.all_cons, Bool.and_eq_true]
          refine ⟨?_, htailclean⟩
          simp [nodeClean, hpopf, hdec, show top.flags.incDepth = false by simpa using hinc]
        refine entryOk_next ctx _ ⟨hallc, ?_, ?_, f4, f5, f6, by rw [f7], ?_⟩
        · rw [f3, f1, hstk]
          simp only [if_neg hinc, Nat.add_zero] at hdep
          simpa using hdep
        · rw [openCount_of_clean _ hallc, f1]
          simp [openCount, topPopBit, hstk, hpopf]
        · rw [f4]
          intro h
          exact absurd h hnd

theorem continueParse_spec (ctx : Ctx) (p : Nat) (json : List Nat)
    (hInv : loopInvB ctx = true) :
    (continueParse ctx p json).1 = .cNoOp ∨
    (parseOk ctx.stack.length (continueParse ctx p json).1 (continueParse ctx p json).2 ∧
     (continueParse ctx p json).1 ≠ .cEndOfDocument) := by
  simp only [continueParse]
  by_cases hp : ctx.jsonPtr ≠ some p
  · rw [if_pos hp]
    have h2 : loopInvB { ctx with
        jsonPtr := some p
        json := json
        json_length := json.length
        iterator := 0 } = true := hInv
    rcases parseLoop_spec (json.length + 2) _ h2 with h | ⟨hok, hne⟩
    · exact Or.inl h
    · exact Or.inr ⟨hok, hne⟩
  · rw [if_neg hp]
    exact parseLoop_spec (json.length + 2) ctx hInv

theorem parse_body_spec (ctx : Ctx) (p : Nat) (json : List Nat) (hInv : invB ctx = true) :
    (hojson_parse_body ctx p json).1 = .cNoOp ∨
    parseOk (openCount ctx) (hojson_parse_body ctx p json).1
      (hojson_parse_body ctx p json).2 := by
  have hbI := hInv
  simp only [invB, Bool.and_eq_true] at hbI
  have hersR := hbI.1.2
  have hescR := hbI.2
  have hE := entry_spec ctx hInv
  rcases hent : hojson_entry ctx with ⟨code0, ctxE⟩ | ⟨ctx1⟩
  · rw [hent] at hE
    have hE2 : parseOk (openCount ctx) code0 ctxE ∧ code0 = .cEndOfDocument ∧
        ctx.state = .sPostValue := hE
    have heq : hojson_parse_body ctx p json = (code0, ctxE) := by
      simp only [hojson_parse_body, hent]
    rw [heq]
    exact Or.inr hE2.1
  · rw [hent] at hE
    have hE2 : ctx1.stack.all nodeClean = true ∧ ctx1.depth = ctx1.stack.length ∧
        openCount ctx1 = openCount ctx ∧ ctx1.state = ctx.state ∧
        ctx1.error_return_state = ctx.error_return_state ∧
        ctx1.escape_return_state = ctx.escape_return_state ∧
        ctx1.iterator = ctx.iterator ∧
        (ctx1.state = .sDone → ctx1.stack = []) := hE
    obtain ⟨hall1, hdep1, hopen1, hst1, hers1, hesc1, hiter1, hdone1⟩ := hE2
    cases hst : ctx1.state with
    | sDone =>
      have heq : hojson_parse_body ctx p json = (.cEndOfDocument, ctx1) := by
        simp only [hojson_parse_body, hent, hst]
      rw [heq]
      right
      have hstk1 : ctx1.stack = [] := hdone1 hst
      refine ⟨invB_mk ctx1 hall1 hdep1 (fun _ => hstk1)
          (by rw [hers1]; exact hersR) (by rw [hesc1]; exact hescR), ?_,
        by simp [isBeginCode], by simp [isEndCode], by simp, by simp, by simp,
        fun _ => hst⟩
      rw [hopen1]
      simp [expectedOpen, isBeginCode, isEndCode]
    | sErrInternal =>
      have heq : hojson_parse_body ctx p json = (.cErrInternal, ctx1) := by
        simp only [hojson_parse_body, hent, hst]
      rw [heq]
      right
      refine ⟨invB_mk ctx1 hall1 hdep1 (fun h => absurd (hst.symm.trans h) (by decide))
          (by rw [hers1]; exact hersR) (by rw [hesc1]; exact hescR), ?_,
        by simp [isBeginCode], by simp [isEndCode], by simp, by simp, fun _ => hst,
        by simp⟩
      rw [hopen1]
      simp [expectedOpen, isBeginCode, isEndCode]
    | sErrMemory =>
      have heq : hojson_parse_body ctx p json = (.cErrMemory, ctx1) := by
        simp only [hojson_parse_body, hent, hst]
      rw [heq]
      right
      refine ⟨invB_mk ctx1 hall1 hdep1 (fun h => absurd (hst.symm.trans h) (by decide))
          (by rw [hers1]; exact hersR) (by rw [hesc1]; exact hescR), ?_,
        by simp [isBeginCode], by simp [isEndCode], by simp, by simp, by simp, by simp⟩
      rw [hopen1]
      simp [expectedOpen, isBeginCode, isEndCode]
    | sErrMismatch =>
      have heq : hojson_parse_body ctx p json = (.cErrMismatch, ctx1) := by
        simp only [hojson_parse_body, hent, hst]
      rw [heq]
      right
      refine ⟨invB_mk ctx1 hall1 hdep1 (fun h => absurd (hst.symm.trans h) (by decide))
          (by rw [hers1]; exact hersR) (by rw [hesc1]; exact hescR), ?_,
        by simp [isBeginCode], by simp [isEndCode], by simp, fun _ => hst, by simp,
        by simp⟩
      rw [hopen1]
      simp [expectedOpen, isBeginCode, isEndCode]
    | sErrSyn =>
      have heq : hojson_parse_body ctx p json = (.cErrSyn, ctx1) := by
        simp only [hojson_parse_body, hent, hst]
      rw [heq]
      right
      refine ⟨invB_mk ctx1 hall1 hdep1 (fun h => absurd (hst.symm.trans h) (by decide))
          (by rw [hers1]; exact hersR) (by rw [hesc1]; exact hescR), ?_,
        by simp [isBeginCode], by simp [isEndCode], fun _ => hst, by simp, by simp,
        by simp⟩
      rw [hopen1]
      simp [expectedOpen, isBeginCode, isEndCode]
    | sErrEof =>
      by_cases hre : (eofProbe ctx1 json).value = 0 ∨ (eofProbe ctx1 json).value = UINT32_MAX
      · have heq : hojson_parse_body ctx p json = (.cErrEof, ctx1) := by
          simp only [hojson_parse_body, hent, hst]
          rw [if_pos hre]
        rw [heq]
        right
        refine ⟨invB_mk ctx1 hall1 hdep1 (fun h => absurd (hst.symm.trans h) (by decide))
            (by rw [hers1]; exact hersR) (by rw [hesc1]; exact hescR), ?_,
          by simp [isBeginCode], by simp [isEndCode], by simp, by simp, by simp, by simp⟩
        rw [hopen1]
        simp [expectedOpen, isBeginCode, isEndCode]
      · have heq : hojson_parse_body ctx p json = continueParse
            { ctx1 with
                state := ctx1.error_return_state
                error_return_state := .sNone }
            p json := by
          simp only [hojson_parse_body, hent, hst]
          rw [if_neg hre]
        rw [heq]
        have hInv2 : loopInvB { ctx1 with
            state := ctx1.error_return_state
            error_return_state := .sNone } = true := by
          simp only [loopInvB, Bool.and_eq_true, decide_eq_true_eq]
          refine ⟨⟨⟨⟨hall1, hdep1⟩, ?_⟩, ?_⟩, ?_⟩
          · show isRunningB ctx1.error_return_state = true
            rw [hers1]
            exact hersR
          · show isRunningB HState.sNone = true
            decide
          · show isRunningB ctx1.escape_return_state = true
            rw [hesc1]
            exact hescR
        rcases continueParse_spec _ p json hInv2 with h | ⟨hok, hne⟩
        · exact Or.inl h
        · right
          have hlen : ctx1.stack.length = openCount ctx :=
            (openCount_of_clean ctx1 hall1).symm.trans hopen1
          rw [← hlen]
          exact hok
    | sNone =>
      have heq : hojson_parse_body ctx p json = continueParse ctx1 p json := by
        simp only [hojson_parse_body, hent, hst]
      rw [heq]
      have hInv2 : loopInvB ctx1 = true := by
        simp only [loopInvB, Bool.and_eq_true, decide_eq_true_eq]
        exact ⟨⟨⟨⟨hall1, hdep1⟩, by rw [hst]; decide⟩, by rw [hers1]; exact hersR⟩,
          by rw [hesc1]; exact hescR⟩
      rcases continueParse_spec ctx1 p json hInv2 with h | ⟨hok, hne⟩
      · exact Or.inl h
      · right
        have hlen : ctx1.stack.length = openCount ctx :=
          (openCount_of_clean ctx1 hall1).symm.trans hopen1
        rw [← hlen]
        exact hok
    | sUtf8Bom1 =>
      have heq : hojson_parse_body ctx p json = continueParse ctx1 p json := by
        simp only [hojson_parse_body, hent, hst]
      rw [heq]
      have hInv2 : loopInvB ctx1 = true := by
        simp only [loopInvB, Bool.and_eq_true, decide_eq_true_eq]
        exact ⟨⟨⟨⟨hall1, hdep1⟩, by rw [hst]; decide⟩, by rw [hers1]; exact hersR⟩,
          by rw [hesc1]; exact hescR⟩
      rcases continueParse_spec ctx1 p json hInv2 with h | ⟨hok, hne⟩
      · exact Or.inl h
      · right
        have hlen : ctx1.stack.length = openCount ctx :=
          (openCount_of_clean ctx1 hall1).symm.trans hopen1
        rw [← hlen]
        exact hok
    | sUtf8Bom2 =>
      have heq : hojson_parse_body ctx p json = continueParse ctx1 p json := by
        simp only [hojson_parse_body, hent, hst]
      rw [heq]
      have hInv2 : loopInvB ctx1 = true := by
        simp only [loopInvB, Bool.and_eq_true, decide_eq_true_eq]
        exact ⟨⟨⟨⟨hall1, hdep1⟩, by rw [hst]; decide⟩, by rw [hers1]; exact hersR⟩,
          by rw [hesc1]; exact hescR⟩
      rcases continueParse_spec ctx1 p json hInv2 with h | ⟨hok, hne⟩
      · exact Or.inl h
      · right
        have hlen : ctx1.stack.length = openCount ctx :=
          (openCount_of_clean ctx1 hall1).symm.trans hopen1
        rw [← hlen]
        exact hok
    | sUtf16beBom =>
      have heq : hojson_parse_body ctx p json = continueParse ctx1 p json := by
        simp only [hojson_parse_body, hent, hst]
      rw [heq]
      have hInv2 : loopInvB ctx1 = true := by
        simp only [loopInvB, Bool.and_eq_true, decide_eq_true_eq]
        exact ⟨⟨⟨⟨hall1, hdep1⟩, by rw [hst]; decide⟩, by rw [hers1]; exact hersR⟩,
          by rw [hesc1]; exact hescR⟩
      rcases continueParse_spec ctx1 p json hInv2 with h | ⟨hok, hne⟩
      · exact Or.inl h
      · right
        have hlen : ctx1.stack.length = openCount ctx :=
          (openCount_of_clean ctx1 hall1).symm.trans hopen1
        rw [← hlen]
        exact hok
    | sUtf16leBom =>
      have heq : hojson_parse_body ctx p json = continueParse ctx1 p json := by
        simp only [hojson_parse_body, hent, hst]
      rw [heq]
      have hInv2 : loopInvB ctx1 = true := by
        simp only [loopInvB, Bool.and_eq_true, decide_eq_true_eq]
        exact ⟨⟨⟨⟨hall1, hdep1⟩, by rw [hst]; decide⟩, by rw [hers1]; exact hersR⟩,
          by rw [hesc1]; exact hescR⟩
      rcases continueParse_spec ctx1 p json hInv2 with h | ⟨hok, hne⟩
      · exact Or.inl h
      · right
        have hlen : ctx1.stack.length = openCount ctx :=
          (openCount_of_clean ctx1 hall1).symm.trans hopen1
        rw [← hlen]
        exact hok
    | sNameExpected =>
      have heq : hojson_parse_body ctx p json = continueParse ctx1 p json := by
        simp only [hojson_parse_body, hent, hst]
      rw [heq]
      have hInv2 : loopInvB ctx1 = true := by
        simp only [loopInvB, Bool.and_eq_true, decide_eq_true_eq]
        exact ⟨⟨⟨⟨hall1, hdep1⟩, by rw [hst]; decide⟩, by rw [hers1]; exact hersR⟩,
          by rw [hesc1]; exact hescR⟩
      rcases continueParse_spec ctx1 p json hInv2 with h | ⟨hok, hne⟩
      · exact Or.inl h
      · right
        have hlen : ctx1.stack.length = openCount ctx :=
          (openCount_of_clean ctx1 hall1).symm.trans hopen1
        rw [← hlen]
        exact hok
    | sName =>
      have heq : hojson_parse_body ctx p json = continueParse ctx1 p json := by
        simp only [hojson_parse_body, hent, hst]
      rw [heq]
      have hInv2 : loopInvB ctx1 = true := by
        simp only [loopInvB, Bool.and_eq_true, decide_eq_true_eq]
        exact ⟨⟨⟨⟨hall1, hdep1⟩, by rw [hst]; decide⟩, by rw [hers1]; exact hersR⟩,
          by rw [hesc1]; exact hescR⟩
      rcases continueParse_spec ctx1 p json hInv2 with h | ⟨hok, hne⟩
      · exact Or.inl h
      · right
        have hlen : ctx1.stack.length = openCount ctx :=
          (openCount_of_clean ctx1 hall1).symm.trans hopen1
        rw [← hlen]
        exact hok
    | sPostName =>
      have heq : hojson_parse_body ctx p json = continueParse ctx1 p json := by
        simp only [hojson_parse_body, hent, hst]
      rw [heq]
      have hInv2 : loopInvB ctx1 = true := by
        simp only [loopInvB, Bool.and_eq_true, decide_eq_true_eq]
        exact ⟨⟨⟨⟨hall1, hdep1⟩, by rw [hst]; decide⟩, by rw [hers1]; exact hersR⟩,
          by rw [hesc1]; exact hescR⟩
      rcases continueParse_spec ctx1 p json hInv2 with h | ⟨hok, hne⟩
      · exact Or.inl h
      · right
        have hlen : ctx1.stack.length = openCount ctx :=
          (openCount_of_clean ctx1 hall1).symm.trans hopen1
        rw [← hlen]
        exact hok
    | sValueExpected =>
      have heq : hojson_parse_body ctx p json = continueParse ctx1 p json := by
        simp only [hojson_parse_body, hent, hst]
      rw [heq]
      have hInv2 : loopInvB ctx1 = true := by
        simp only [loopInvB, Bool.and_eq_true, decide_eq_true_eq]
        exact ⟨⟨⟨⟨hall1, hdep1⟩, by rw [hst]; decide⟩, by rw [hers1]; exact hersR⟩,
          by rw [hesc1]; exact hescR⟩
      rcases continueParse_spec ctx1 p json hInv2 with h | ⟨hok, hne⟩
      · exact Or.inl h
      · right
        have hlen : ctx1.stack.length = openCount ctx :=
          (openCount_of_clean ctx1 hall1).symm.trans hopen1
        rw [← hlen]
        exact hok
    | sStringValue =>
      have heq : hojson_parse_body ctx p json = continueParse ctx1 p json := by
        simp only [hojson_parse_body, hent, hst]
      rw [heq]
      have hInv2 : loopInvB ctx1 = true := by
        simp only [loopInvB, Bool.and_eq_true, decide_eq_true_eq]
        exact ⟨⟨⟨⟨hall1, hdep1⟩, by rw [hst]; decide⟩, by rw [hers1]; exact hersR⟩,
          by rw [hesc1]; exact hescR⟩
      rcases continueParse_spec ctx1 p json hInv2 with h | ⟨hok, hne⟩
      · exact Or.inl h
      · right
        have hlen : ctx1.stack.length = openCount ctx :=
          (openCount_of_clean ctx1 hall1).symm.trans hopen1
        rw [← hlen]
        exact hok
    | sEscape =>
      have heq : hojson_parse_body ctx p json = continueParse ctx1 p json := by
        simp only [hojson_parse_body, hent, hst]
      rw [heq]
      have hInv2 : loopInvB ctx1 = true := by
        simp only [loopInvB, Bool.and_eq_true, decide_eq_true_eq]
        exact ⟨⟨⟨⟨hall1, hdep1⟩, by rw [hst]; decide⟩, by rw [hers1]; exact hersR⟩,
          by rw [hesc1]; exact hescR⟩
      rcases continueParse_spec ctx1 p json hInv2 with h | ⟨hok, hne⟩
      · exact Or.inl h
      · right
        have hlen : ctx1.stack.length = openCount ctx :=
          (openCount_of_clean ctx1 hall1).symm.trans hopen1
        rw [← hlen]
        exact hok
    | sUnicode1 =>
      have heq : hojson_parse_body ctx p json = continueParse ctx1 p json := by
        simp only [hojson_parse_body, hent, hst]
      rw [heq]
      have hInv2 : loopInvB ctx1 = true := by
        simp only [loopInvB, Bool.and_eq_true, decide_eq_true_eq]
        exact ⟨⟨⟨⟨hall1, hdep1⟩, by rw [hst]; decide⟩, by rw [hers1]; exact hersR⟩,
          by rw [hesc1]; exact hescR⟩
      rcases continueParse_spec ctx1 p json hInv2 with h | ⟨hok, hne⟩
      · exact Or.inl h
      · right
        have hlen : ctx1.stack.length = openCount ctx :=
          (openCount_of_clean ctx1 hall1).symm.trans hopen1
        rw [← hlen]
        exact hok
    | sUnicode2 =>
      have heq : hojson_parse_body ctx p json = continueParse ctx1 p json := by
        simp only [hojson_parse_body, hent, hst]
      rw [heq]
      have hInv2 : loopInvB ctx1 = true := by
        simp only [loopInvB, Bool.and_eq_true, decide_eq_true_eq]
        exact ⟨⟨⟨⟨hall1, hdep1⟩, by rw [hst]; decide⟩, by rw [hers1]; exact hersR⟩,
          by rw [hesc1]; exact hescR⟩
      rcases continueParse_spec ctx1 p json hInv2 with h | ⟨hok, hne⟩
      · exact Or.inl h
      · right
        have hlen : ctx1.stack.length = openCount ctx :=
          (openCount_of_clean ctx1 hall1).symm.trans hopen1
        rw [← hlen]
        exact hok
    | sUnicode3 =>
      have heq : hojson_parse_body ctx p json = continueParse ctx1 p json := by
        simp only [hojson_parse_body, hent, hst]
      rw [heq]
      have hInv2 : loopInvB ctx1 = true := by
        simp only [loopInvB, Bool.and_eq_true, decide_eq_true_eq]
        exact ⟨⟨⟨⟨hall1, hdep1⟩, by rw [hst]; decide⟩, by rw [hers1]; exact hersR⟩,
          by rw [hesc1]; exact hescR⟩
      rcases continueParse_spec ctx1 p json hInv2 with h | ⟨hok, hne⟩
      · exact Or.inl h
      · right
        have hlen : ctx1.stack.length = openCount ctx :=
          (openCount_of_clean ctx1 hall1).symm.trans hopen1
        rw [← hlen]
        exact hok
    | sUnicode4 =>
      have heq : hojson_parse_body ctx p json = continueParse ctx1 p json := by
        simp only [hojson_parse_body, hent, hst]
      rw [heq]
      have hInv2 : loopInvB ctx1 = true := by
        simp only [loopInvB, Bool.and_eq_true, decide_eq_true_eq]
        exact ⟨⟨⟨⟨hall1, hdep1⟩, by rw [hst]; decide⟩, by rw [hers1]; exact hersR⟩,
          by rw [hesc1]; exact hescR⟩
      rcases continueParse_spec ctx1 p json hInv2 with h | ⟨hok, hne⟩
      · exact Or.inl h
      · right
        have hlen : ctx1.stack.length = openCount ctx :=
          (openCount_of_clean ctx1 hall1).symm.trans hopen1
        rw [← hlen]
        exact hok
    | sNumberValue =>
      have heq : hojson_parse_body ctx p json = continueParse ctx1 p json := by
        simp only [hojson_parse_body, hent, hst]
      rw [heq]
      have hInv2 : loopInvB ctx1 = true := by
        simp only [loopInvB, Bool.and_eq_true, decide_eq_true_eq]
        exact ⟨⟨⟨⟨hall1, hdep1⟩, by rw [hst]; decide⟩, by rw [hers1]; exact hersR⟩,
          by rw [hesc1]; exact hescR⟩
      rcases continueParse_spec ctx1 p json hInv2 with h | ⟨hok, hne⟩
      · exact Or.inl h
      · right
        have hlen : ctx1.stack.length = openCount ctx :=
          (openCount_of_clean ctx1 hall1).symm.trans hopen1
        rw [← hlen]
        exact hok
    | sTrueT =>
      have heq : hojson_parse_body ctx p json = continueParse ctx1 p json := by
        simp only [hojson_parse_body, hent, hst]
      rw [heq]
      have hInv2 : loopInvB ctx1 = true := by
        simp only [loopInvB, Bool.and_eq_true, decide_eq_true_eq]
        exact ⟨⟨⟨⟨hall1, hdep1⟩, by rw [hst]; decide⟩, by rw [hers1]; exact hersR⟩,
          by rw [hesc1]; exact hescR⟩
      rcases continueParse_spec ctx1 p json hInv2 with h | ⟨hok, hne⟩
      · exact Or.inl h
      · right
        have hlen : ctx1.stack.length = openCount ctx :=
          (openCount_of_clean ctx1 hall1).symm.trans hopen1
        rw [← hlen]
        exact hok
    | sTrueR =>
      have heq : hojson_parse_body ctx p json = continueParse ctx1 p json := by
        simp only [hojson_parse_body, hent, hst]
      rw [heq]
      have hInv2 : loopInvB ctx1 = true := by
        simp only [loopInvB, Bool.and_eq_true, decide_eq_true_eq]
        exact ⟨⟨⟨⟨hall1, hdep1⟩, by rw [hst]; decide⟩, by rw [hers1]; exact hersR⟩,
          by rw [hesc1]; exact hescR⟩
      rcases continueParse_spec ctx1 p json hInv2 with h | ⟨hok, hne⟩
      · exact Or.inl h
      · right
        have hlen : ctx1.stack.length = openCount ctx :=
          (openCount_of_clean ctx1 hall1).symm.trans hopen1
        rw [← hlen]
        exact hok
    | sTrueU =>
      have heq : hojson_parse_body ctx p json = continueParse ctx1 p json := by
        simp only [hojson_parse_body, hent, hst]
      rw [heq]
      have hInv2 : loopInvB ctx1 = true := by
        simp only [loopInvB, Bool.and_eq_true, decide_eq_true_eq]
        exact ⟨⟨⟨⟨hall1, hdep1⟩, by rw [hst]; decide⟩, by rw [hers1]; exact hersR⟩,
          by rw [hesc1]; exact hescR⟩
      rcases continueParse_spec ctx1 p json hInv2 with h | ⟨hok, hne⟩
      · exact Or.inl h
      · right
        have hlen : ctx1.stack.length = openCount ctx :=
          (openCount_of_clean ctx1 hall1).symm.trans hopen1
        rw [← hlen]
        exact hok
    | sFalseF =>
      have heq : hojson_parse_body ctx p json = continueParse ctx1 p json := by
        simp only [hojson_parse_body, hent, hst]
      rw [heq]
      have hInv2 : loopInvB ctx1 = true := by
        simp only [loopInvB, Bool.and_eq_true, decide_eq_true_eq]
        exact ⟨⟨⟨⟨hall1, hdep1⟩, by rw [hst]; decide⟩, by rw [hers1]; exact hersR⟩,
          by rw [hesc1]; exact hescR⟩
      rcases continueParse_spec ctx1 p json hInv2 with h | ⟨hok, hne⟩
      · exact Or.inl h
      · right
        have hlen : ctx1.stack.length = openCount ctx :=
          (openCount_of_clean ctx1 hall1).symm.trans hopen1
        rw [← hlen]
        exact hok
    | sFalseA =>
      have heq : hojson_parse_body ctx p json = continueParse ctx1 p json := by
        simp only [hojson_parse_body, hent, hst]
      rw [heq]
      have hInv2 : loopInvB ctx1 = true := by
        simp only [loopInvB, Bool.and_eq_true, decide_eq_true_eq]
        exact ⟨⟨⟨⟨hall1, hdep1⟩, by rw [hst]; decide⟩, by rw [hers1]; exact hersR⟩,
          by rw [hesc1]; exact hescR⟩
      rcases continueParse_spec ctx1 p json hInv2 with h | ⟨hok, hne⟩
      · exact Or.inl h
      · right
        have hlen : ctx1.stack.length = openCount ctx :=
          (openCount_of_clean ctx1 hall1).symm.trans hopen1
        rw [← hlen]
        exact hok
    | sFalseL =>
      have heq : hojson_parse_body ctx p json = continueParse ctx1 p json := by
        simp only [hojson_parse_body, hent, hst]
      rw [heq]
      have hInv2 : loopInvB ctx1 = true := by
        simp only [loopInvB, Bool.and_eq_true, decide_eq_true_eq]
        exact ⟨⟨⟨⟨hall1, hdep1⟩, by rw [hst]; decide⟩, by rw [hers1]; exact hersR⟩,
          by rw [hesc1]; exact hescR⟩
      rcases continueParse_spec ctx1 p json hInv2 with h | ⟨hok, hne⟩
      · exact Or.inl h
      · right
        have hlen : ctx1.stack.length = openCount ctx :=
          (openCount_of_clean ctx1 hall1).symm.trans hopen1
        rw [← hlen]
        exact hok
    | sFalseS =>
      have heq : hojson_parse_body ctx p json = continueParse ctx1 p json := by
        simp only [hojson_parse_body, hent, hst]
      rw [heq]
      have hInv2 : loopInvB ctx1 = true := by
        simp only [loopInvB, Bool.and_eq_true, decide_eq_true_eq]
        exact ⟨⟨⟨⟨hall1, hdep1⟩, by rw [hst]; decide⟩, by rw [hers1]; exact hersR⟩,
          by rw [hesc1]; exact hescR⟩
      rcases continueParse_spec ctx1 p json hInv2 with h | ⟨hok, hne⟩
      · exact Or.inl h
      · right
        have hlen : ctx1.stack.length = openCount ctx :=
          (openCount_of_clean ctx1 hall1).symm.trans hopen1
        rw [← hlen]
        exact hok
    | sNullN =>
      have heq : hojson_parse_body ctx p json = continueParse ctx1 p json := by
        simp only [hojson_parse_body, hent, hst]
      rw [heq]
      have hInv2 : loopInvB ctx1 = true := by
        simp only [loopInvB, Bool.and_eq_true, decide_eq_true_eq]
        exact ⟨⟨⟨⟨hall1, hdep1⟩, by rw [hst]; decide⟩, by rw [hers1]; exact hersR⟩,
          by rw [hesc1]; exact hescR⟩
      rcases continueParse_spec ctx1 p json hInv2 with h | ⟨hok, hne⟩
      · exact Or.inl h
      · right
        have hlen : ctx1.stack.length = openCount ctx :=
          (openCount_of_clean ctx1 hall1).symm.trans hopen1
        rw [← hlen]
        exact hok
    | sNullU =>
      have heq : hojson_parse_body ctx p json = continueParse ctx1 p json := by
        simp only [hojson_parse_body, hent, hst]
      rw [heq]
      have hInv2 : loopInvB ctx1 = true := by
        simp only [loopInvB, Bool.and_eq_true, decide_eq_true_eq]
        exact ⟨⟨⟨⟨hall1, hdep1⟩, by rw [hst]; decide⟩, by rw [hers1]; exact hersR⟩,
          by rw [hesc1]; exact hescR⟩
      rcases continueParse_spec ctx1 p json hInv2 with h | ⟨hok, hne⟩
      · exact Or.inl h
      · right
        have hlen : ctx1.stack.length = openCount ctx :=
          (openCount_of_clean ctx1 hall1).symm.trans hopen1
        rw [← hlen]
        exact hok
    | sNullL =>
      have heq : hojson_parse_body ctx p json = continueParse ctx1 p json := by
        simp only [hojson_parse_body, hent, hst]
      rw [heq]
      have hInv2 : loopInvB ctx1 = true := by
        simp only [loopInvB, Bool.and_eq_true, decide_eq_true_eq]
        exact ⟨⟨⟨⟨hall1, hdep1⟩, by rw [hst]; decide⟩, by rw [hers1]; exact hersR⟩,
          by rw [hesc1]; exact hescR⟩
      rcases continueParse_spec ctx1 p json hInv2 with h | ⟨hok, hne⟩
      · exact Or.inl h
      · right
        have hlen : ctx1.stack.length = openCount ctx :=
          (openCount_of_clean ctx1 hall1).symm.trans hopen1
        rw [← hlen]
        exact hok
    | sPostValue =>
      have heq : hojson_parse_body ctx p json = continueParse ctx1 p json := by
        simp only [hojson_parse_body, hent, hst]
      rw [heq]
      have hInv2 : loopInvB ctx1 = true := by
        simp only [loopInvB, Bool.and_eq_true, decide_eq_true_eq]
        exact ⟨⟨⟨⟨hall1, hdep1⟩, by rw [hst]; decide⟩, by rw [hers1]; exact hersR⟩,
          by rw [hesc1]; exact hescR⟩
      rcases continueParse_spec ctx1 p json hInv2 with h | ⟨hok, hne⟩
      · exact Or.inl h
      · right
        have hlen : ctx1.stack.length = openCount ctx :=
          (openCount_of_clean ctx1 hall1).symm.trans hopen1
        rw [← hlen]
        exact hok

theorem invB_init (n : Nat) : invB (hojson_init n) = true := rfl

theorem runCalls_depthSucc : ∀ (fuel : Nat) (ctx : Ctx) (p : Nat) (json : List Nat),
    invB ctx = true →
    depthSuccOk (runCalls fuel ctx p json) (List.range (openCount ctx)).reverse = true := by
  intro fuel
  induction fuel with
  | zero =>
    intro ctx p json _
    rfl
  | succ n ih =>
    intro ctx p json hInv
    rcases hbody : hojson_parse_body ctx p json with ⟨code, ctx'⟩
    rcases parse_body_spec ctx p json hInv with hnoop | hok
    · rw [hbody] at hnoop
      have hc : code = .cNoOp := hnoop
      have heq : runCalls (n + 1) ctx p json = [] := by
        simp only [runCalls, hbody, hc]
        simp [codeIdx]
      rw [heq]
      rfl
    · rw [hbody] at hok
      have hok2 : parseOk (openCount ctx) code ctx' := hok
      obtain ⟨hinv2, hopen2, hbegin2, hend2, _, _, _, _⟩ := hok2
      by_cases hle : codeIdx code ≤ 0
      · have heq : runCalls (n + 1) ctx p json = [] := by
          simp only [runCalls, hbody]
          rw [if_pos hle]
        rw [heq]
        rfl
      · by_cases heod : code = .cEndOfDocument
        · have heq : runCalls (n + 1) ctx p json = [mkEvent code ctx'] := by
            simp only [runCalls, hbody]
            rw [if_neg hle, if_pos heod]
          rw [heq]
          simp [depthSuccOk, mkEvent, heod, isBeginCode, isEndCode]
        · have heq : runCalls (n + 1) ctx p json =
              mkEvent code ctx' :: runCalls n ctx' p json := by
            simp only [runCalls, hbody]
            rw [if_neg hle, if_neg heod]
          rw [heq]
          by_cases hbc : isBeginCode code = true
          · have hdepth := hbegin2 hbc
            have hcount : openCount ctx' = openCount ctx + 1 := by
              rw [hopen2]
              simp [expectedOpen, hbc]
            have hstep : depthSuccOk (mkEvent code ctx' :: runCalls n ctx' p json)
                (List.range (openCount ctx)).reverse =
                depthSuccOk (runCalls n ctx' p json)
                  (ctx'.depth :: (List.range (openCount ctx)).reverse) := by
              simp [depthSuccOk, mkEvent, hbc]
            rw [hstep]
            have hpend : ctx'.depth :: (List.range (openCount ctx)).reverse =
                (List.range (openCount ctx')).reverse := by
              rw [hdepth, hcount, List.range_succ]
              simp
            rw [hpend]
            exact ih ctx' p json hinv2
          · by_cases hec : isEndCode code = true
            · obtain ⟨hdepth, hk⟩ := hend2 hec
              have hcount : openCount ctx' = openCount ctx - 1 := by
                rw [hopen2]
                simp [expectedOpen, hbc, hec]
              have hpend : (List.range (openCount ctx)).reverse =
                  (openCount ctx - 1) :: (List.range (openCount ctx - 1)).reverse := by
                have hm : openCount ctx = (openCount ctx - 1) + 1 := by omega
                rw [hm, List.range_succ]
                simp
              rw [hpend]
              have hstep : depthSuccOk (mkEvent code ctx' :: runCalls n ctx' p json)
                  ((openCount ctx - 1) :: (List.range (openCount ctx - 1)).reverse) =
                  (decide (ctx'.depth = (openCount ctx - 1) + 1) &&
                    depthSuccOk (runCalls n ctx' p json)
                      (List.range (openCount ctx - 1)).reverse) := by
                simp [depthSuccOk, mkEvent, hbc, hec]
              rw [hstep]
              rw [Bool.and_eq_true]
              refine ⟨?_, ?_⟩
              · rw [decide_eq_true_eq, hdepth]
                omega
              · rw [← hcount]
                exact ih ctx' p json hinv2
            · have hcount : openCount ctx' = openCount ctx := by
                rw [hopen2]
                simp [expectedOpen, hbc, hec]
              have hstep : depthSuccOk (mkEvent code ctx' :: runCalls n ctx' p json)
                  (List.range (openCount ctx)).reverse =
                  depthSuccOk (runCalls n ctx' p json)
                    (List.range (openCount ctx)).reverse := by
                simp [depthSuccOk, mkEvent, hbc, hec]
              rw [hstep]
              rw [← hcount]
              exact ih ctx' p json hinv2

theorem pinned_code_ne_noop (s : HState) (c : Code)
    (h : pinnedState s = some c) : c ≠ .cNoOp := by
  intro hc
  subst hc
  cases s <;> simp [pinnedState] at h

theorem pinned_step (ctx : Ctx) (code : Code) (p : Nat) (json : List Nat)
    (hInv : invB ctx = true) (hpin : pinnedState ctx.state = some code) :
    (hojson_parse_body ctx p json).1 = code ∧
    (hojson_parse_body ctx p json).2.state = ctx.state ∧
    (hojson_parse_body ctx p json).2.iterator = ctx.iterator := by
  have hE := entry_spec ctx hInv
  rcases hent : hojson_entry ctx with ⟨code0, ctxE⟩ | ⟨ctx1⟩
  · rw [hent] at hE
    have hE2 : parseOk (openCount ctx) code0 ctxE ∧ code0 = .cEndOfDocument ∧
        ctx.state = .sPostValue := hE
    rw [hE2.2.2] at hpin
    simp [pinnedState] at hpin
  · rw [hent] at hE
    have hE2 : ctx1.stack.all nodeClean = true ∧ ctx1.depth = ctx1.stack.length ∧
        openCount ctx1 = openCount ctx ∧ ctx1.state = ctx.state ∧
        ctx1.error_return_state = ctx.error_return_state ∧
        ctx1.escape_return_state = ctx.escape_return_state ∧
        ctx1.iterator = ctx.iterator ∧
        (ctx1.state = .sDone → ctx1.stack = []) := hE
    obtain ⟨hall1, hdep1, hopen1, hst1, hers1, hesc1, hiter1, hdone1⟩ := hE2
    cases hst : ctx.state with
    | sDone =>
      have heq : hojson_parse_body ctx p json = (.cEndOfDocument, ctx1) := by
        simp only [hojson_parse_body, hent, hst1.trans hst]
      rw [heq]
      rw [hst] at hpin
      have hcode : code = .cEndOfDocument := by simpa [pinnedState] using hpin.symm
      exact ⟨hcode.symm, hst1.trans hst, hiter1⟩
    | sErrSyn =>
      have heq : hojson_parse_body ctx p json = (.cErrSyn, ctx1) := by
        simp only [hojson_parse_body, hent, hst1.trans hst]
      rw [heq]
      rw [hst] at hpin
      have hcode : code = .cErrSyn := by simpa [pinnedState] using hpin.symm
      exact ⟨hcode.symm, hst1.trans hst, hiter1⟩
    | sErrMismatch =>
      have heq : hojson_parse_body ctx p json = (.cErrMismatch, ctx1) := by
        simp only [hojson_parse_body, hent, hst1.trans hst]
      rw [heq]
      rw [hst] at hpin
      have hcode : code = .cErrMismatch := by simpa [pinnedState] using hpin.symm
      exact ⟨hcode.symm, hst1.trans hst, hiter1⟩
    | sErrInternal =>
      have heq : hojson_parse_body ctx p json = (.cErrInternal, ctx1) := by
        simp only [hojson_parse_body, hent, hst1.trans hst]
      rw [heq]
      rw [hst] at hpin
      have hcode : code = .cErrInternal := by simpa [pinnedState] using hpin.symm
      exact ⟨hcode.symm, hst1.trans hst, hiter1⟩
    | sNone => rw [hst] at hpin; simp [pinnedState] at hpin
    | sUtf8Bom1 => rw [hst] at hpin; simp [pinnedState] at hpin
    | sUtf8Bom2 => rw [hst] at hpin; simp [pinnedState] at hpin
    | sUtf16beBom => rw [hst] at hpin; simp [pinnedState] at hpin
    | sUtf16leBom => rw [hst] at hpin; simp [pinnedState] at hpin
    | sNameExpected => rw [hst] at hpin; simp [pinnedState] at hpin
    | sName => rw [hst] at hpin; simp [pinnedState] at hpin
    | sPostName => rw [hst] at hpin; simp [pinnedState] at hpin
    | sValueExpected => rw [hst] at hpin; simp [pinnedState] at hpin
    | sStringValue => rw [hst] at hpin; simp [pinnedState] at hpin
    | sEscape => rw [hst] at hpin; simp [pinnedState] at hpin
    | sUnicode1 => rw [hst] at hpin; simp [pinnedState] at hpin
    | sUnicode2 => rw [hst] at hpin; simp [pinnedState] at hpin
    | sUnicode3 => rw [hst] at hpin; simp [pinnedState] at hpin
    | sUnicode4 => rw [hst] at hpin; simp [pinnedState] at hpin
    | sNumberValue => rw [hst] at hpin; simp [pinnedState] at hpin
    | sTrueT => rw [hst] at hpin; simp [pinnedState] at hpin
    | sTrueR => rw [hst] at hpin; simp [pinnedState] at hpin
    | sTrueU => rw [hst] at hpin; simp [pinnedState] at hpin
    | sFalseF => rw [hst] at hpin; simp [pinnedState] at hpin
    | sFalseA => rw [hst] at hpin; simp [pinnedState] at hpin
    | sFalseL => rw [hst] at hpin; simp [pinnedState] at hpin
    | sFalseS => rw [hst] at hpin; simp [pinnedState] at hpin
    | sNullN => rw [hst] at hpin; simp [pinnedState] at hpin
    | sNullU => rw [hst] at hpin; simp [pinnedState] at hpin
    | sNullL => rw [hst] at hpin; simp [pinnedState] at hpin
    | sPostValue => rw [hst] at hpin; simp [pinnedState] at hpin
    | sErrMemory => rw [hst] at hpin; simp [pinnedState] at hpin
    | sErrEof => rw [hst] at hpin; simp [pinnedState] at hpin

theorem callSeq_pinned : ∀ (calls : List (Nat × List Nat)) (ctx : Ctx) (code : Code),
    invB ctx = true → pinnedState ctx.state = some code →
    (∀ c ∈ (callSeq ctx calls).1, c = code) ∧
    (callSeq ctx calls).2.state = ctx.state ∧
    (callSeq ctx calls).2.iterator = ctx.iterator := by
  intro calls
  induction calls with
  | nil =>
    intro ctx code _ _
    exact ⟨fun c hc => absurd hc (List.not_mem_nil c), rfl, rfl⟩
  | cons pj rest ih =>
    intro ctx code hInv hpin
    rcases pj with ⟨p, j⟩
    rcases hbody : hojson_parse_body ctx p j with ⟨c0, ctx'⟩
    obtain ⟨hc0, hst0, hit0⟩ := pinned_step ctx code p j hInv hpin
    rw [hbody] at hc0 hst0 hit0
    have hc0' : c0 = code := hc0
    have hInv' : invB ctx' = true := by
      rcases parse_body_spec ctx p j hInv with hnoop | hok
      · rw [hbody] at hnoop
        have : c0 = .cNoOp := hnoop
        rw [this] at hc0'
        exact absurd hc0'.symm (pinned_code_ne_noop ctx.state code hpin)
      · rw [hbody] at hok
        have hok2 : parseOk (openCount ctx) c0 ctx' := hok
        exact hok2.1
    have hpin' : pinnedState ctx'.state = some code := by
      rw [show ctx'.state = ctx.state from hst0]
      exact hpin
    obtain ⟨hall, hstF, hitF⟩ := ih ctx' code hInv' hpin'
    have heq : callSeq ctx ((p, j) :: rest) =
        (c0 :: (callSeq ctx' rest).1, (callSeq ctx' rest).2) := by
      simp only [callSeq, hbody]
    rw [heq]
    refine ⟨?_, ?_, ?_⟩
    · intro c hc
      rcases List.mem_cons.mp hc with h | h
      · rw [h]
        exact hc0'
      · exact hall c h
    · rw [hstF]
      exact hst0
    · rw [hitF]
      exact hit0

theorem updTopFlags_misc (ctx : Ctx) (f : HFlags → HFlags) :
    (updTopFlags ctx f).value_type = ctx.value_type ∧
    (updTopFlags ctx f).float_value = ctx.float_value ∧
    (updTopFlags ctx f).integer_value = ctx.integer_value ∧
    (updTopFlags ctx f).iterator = ctx.iterator ∧
    (updTopFlags ctx f).bytes_iterated = ctx.bytes_iterated := by
  rcases h : ctx.stack <;> simp [updTopFlags, h]

theorem term_char_facts (v : Nat)
    (h : isWhitespace v = true ∨ v = 44 ∨ v = 93 ∨ v = 125) :
    isNumeric v = false ∧ v ≠ 46 ∧ v ≠ 101 ∧ v ≠ 69 ∧ v ≠ 45 ∧ v ≠ 43 ∧
    v ≠ 0 ∧ v ≠ UINT32_MAX := by
  rcases h with hw | rfl | rfl | rfl
  · simp only [isWhitespace, isNewLine, Bool.or_eq_true, decide_eq_true_eq] at hw
    rcases hw with (rfl | rfl) | (rfl | rfl) <;> decide
  · decide
  · decide
  · decide

/-- C4 (amended): in the `NUMBER_VALUE` state a whitespace character, `,`,
`]` or `}` terminates the number: the call returns `HOJSON_VALUE` typed
float when a decimal point or exponent was seen and integer otherwise, with
the collected characters converted accordingly, and the terminator is put
back (the iterator is left where it was) only when it is not whitespace; a
whitespace terminator stays consumed, unlike the specification's claim that
every terminating character is put back. -/
theorem c4_number_termination (fuel : Nat) (ctx : Ctx)
    (hst : ctx.state = .sNumberValue) (hstk : ctx.stack ≠ [])
    (hterm : isWhitespace (loopChar ctx).value = true ∨ (loopChar ctx).value = 44 ∨
      (loopChar ctx).value = 93 ∨ (loopChar ctx).value = 125) :
    ∃ ctx', parseLoop (fuel + 1) ctx = (.cValue, ctx') ∧
      ctx'.value_type = (if ((topNode ctx).flags.decimal ||
          (topNode ctx).flags.exponent) = true then VType.tFloat else VType.tInteger) ∧
      (∀ off, ctx.string_value = some off →
        (((topNode ctx).flags.decimal || (topNode ctx).flags.exponent) = true →
          ctx'.float_value = readCString ctx.buffer off) ∧
        (((topNode ctx).flags.decimal || (topNode ctx).flags.exponent) = false →
          ctx'.integer_value = atoiModel (readCString ctx.buffer off))) ∧
      ctx'.state = .sPostValue ∧
      ctx'.iterator = (if isWhitespace (loopChar ctx).value = true then
          ctx.iterator + sizeSub (loopChar ctx).bytes ctx.stream_length
        else ctx.iterator) := by
  obtain ⟨hnum, h46, h101, h69, h45, h43, h0, hmax⟩ := term_char_facts _ hterm
  have hguard : ¬(stateIdx HState.sNameExpected ≤ stateIdx ctx.state ∧ ctx.stack = []) :=
    fun hC => hstk hC.2
  have hnz : ¬((loopChar ctx).value = 0 ∨ (loopChar ctx).value = UINT32_MAX) := by
    rintro (h | h)
    · exact h0 h
    · exact hmax h
  obtain ⟨hf1, hf2, hf3, hf4, hf5, hf6, hf7, hf8, hf9⟩ := loopPosCtx_fields ctx (loopChar ctx)
  have hst3 : (loopPosCtx ctx (loopChar ctx)).state = .sNumberValue := by rw [hf3, hst]
  have htop3 : topNode (loopPosCtx ctx (loopChar ctx)) = topNode ctx := by
    simp only [topNode, hf1]
  have hcondT : (isWhitespace (loopChar ctx).value || (loopChar ctx).value = 44 ||
      (loopChar ctx).value = 93 || (loopChar ctx).value = 125) = true := by
    rcases hterm with hw | hv | hv | hv
    · simp [hw]
    · simp [hv]
    · simp [hv]
    · simp [hv]
  have hsw : parseSwitch (loopPosCtx ctx (loopChar ctx)) (loopChar ctx) =
      numberTerminate (loopPosCtx ctx (loopChar ctx)) (loopChar ctx) := by
    simp only [parseSwitch, hst3]
    rw [if_neg (by simp [hnum]), if_neg h46, if_neg (by simp [h101, h69]),
      if_neg (by simp [h45, h43]), if_pos hcondT]
  have heq : parseLoop (fuel + 1) ctx =
      (Code.cValue, numberTermCtx (loopPosCtx ctx (loopChar ctx)) (loopChar ctx)) := by
    simp only [parseLoop]
    rw [if_neg hguard, if_neg hnz, hsw]
    rfl
  refine ⟨numberTermCtx (loopPosCtx ctx (loopChar ctx)) (loopChar ctx), heq, ?_, ?_, ?_, ?_⟩
  · by_cases hws : isWhitespace (loopChar ctx).value = true <;>
      by_cases hfl : ((topNode ctx).flags.decimal || (topNode ctx).flags.exponent) = true <;>
        simp [numberTermCtx, htop3, hfl, hws, hojson_stay, updTopFlags_misc]
  · intro off hoff
    refine ⟨fun hfl => ?_, fun hfl => ?_⟩ <;>
      by_cases hws : isWhitespace (loopChar ctx).value = true <;>
        simp [numberTermCtx, htop3, hfl, hws, hojson_stay, updTopFlags_misc, hf6, hf7, hoff]
  · by_cases hws : isWhitespace (loopChar ctx).value = true <;>
      by_cases hfl : ((topNode ctx).flags.decimal || (topNode ctx).flags.exponent) = true <;>
        simp [numberTermCtx, htop3, hfl, hws, hojson_stay, updTopFlags_misc]
  · by_cases hws : isWhitespace (loopChar ctx).value = true <;>
      by_cases hfl : ((topNode ctx).flags.decimal || (topNode ctx).flags.exponent) = true <;>
        simp [numberTermCtx, htop3, hfl, hws, hojson_stay, updTopFlags_misc, hf8, hf9]

/-- C6 (amended): over any run of `hojson_parse` calls on a fresh context,
the `depth` exposed at every `OBJECT_END` or `ARRAY_END` event is one more
than the `depth` exposed at the matching `OBJECT_BEGIN` or `ARRAY_BEGIN`
event; the specification's claim that the two depths are equal does not hold
(see the counterexample), the offset of one does. -/
theorem c6_end_depth_is_begin_depth_succ (bufLen fuel p : Nat) (json : List Nat) :
    depthSuccOk (runCalls fuel (hojson_init bufLen) p json) [] = true := by
  have h := runCalls_depthSucc fuel (hojson_init bufLen) p json (invB_init bufLen)
  have hopen : openCount (hojson_init bufLen) = 0 := rfl
  rw [hopen] at h
  simpa using h

/-- C7: once a call on a well-formed context has returned `END_OF_DOCUMENT`,
`SYNTAX`, `TOKEN_MISMATCH` or `INTERNAL`, every later call returns the same
code again: the state is pinned, the iterator does not move, and each code
of any further call sequence equals the original code. -/
theorem c7_pinned_codes_repeat (ctx0 ctx : Ctx) (p0 : Nat) (j0 : List Nat)
    (code : Code) (calls : List (Nat × List Nat))
    (hInv0 : invB ctx0 = true)
    (hprev : hojson_parse_body ctx0 p0 j0 = (code, ctx))
    (hcode : code = .cEndOfDocument ∨ code = .cErrSyn ∨ code = .cErrMismatch ∨
      code = .cErrInternal) :
    (∀ c ∈ (callSeq ctx calls).1, c = code) ∧
    (callSeq ctx calls).2.state = ctx.state ∧
    (callSeq ctx calls).2.iterator = ctx.iterator := by
  have hspec := parse_body_spec ctx0 p0 j0 hInv0
  rw [hprev] at hspec
  rcases hspec with hnoop | hok
  · have hshape : code = .cNoOp := hnoop
    rcases hcode with h | h | h | h <;> rw [h] at hshape <;>
      exact absurd hshape (by decide)
  · have hok2 : parseOk (openCount ctx0) code ctx := hok
    obtain ⟨hinv, _, _, _, hsyn, hmis, hint, heod⟩ := hok2
    have hpin : pinnedState ctx.state = some code := by
      rcases hcode with h | h | h | h
      · rw [heod h, h]
        rfl
      · rw [hsyn h, h]
        rfl
      · rw [hmis h, h]
        rfl
      · rw [hint h, h]
        rfl
    exact callSeq_pinned calls ctx code hinv hpin

theorem c7_pinned_codes_repeat_witness :
    invB (hojson_init 8) = true ∧
    hojson_parse_body (hojson_init 8) 1 [93] =
      (Code.cErrSyn, (hojson_parse_body (hojson_init 8) 1 [93]).2) ∧
    (∀ c ∈ (callSeq (hojson_parse_body (hojson_init 8) 1 [93]).2
        [(1, [93]), (2, [123, 125])]).1, c = Code.cErrSyn) ∧
    (callSeq (hojson_parse_body (hojson_init 8) 1 [93]).2
        [(1, [93]), (2, [123, 125])]).2.state =
      (hojson_parse_body (hojson_init 8) 1 [93]).2.state ∧
    (callSeq (hojson_parse_body (hojson_init 8) 1 [93]).2
        [(1, [93]), (2, [123, 125])]).2.iterator =
      (hojson_parse_body (hojson_init 8) 1 [93]).2.iterator :=
  ⟨by decide, by decide,
    c7_pinned_codes_repeat (hojson_init 8) (hojson_parse_body (hojson_init 8) 1 [93]).2
      1 [93] .cErrSyn [(1, [93]), (2, [123, 125])] (by decide) (by decide)
      (Or.inr (Or.inl rfl))⟩

/-- C10: whenever the character decoded by the parse loop has Unicode value
zero, the loop treats it as end of input regardless of how many input bytes
remain: it stashes the current state in `error_return_state`, keeps the
topped-up stream register, and returns the recoverable `UNEXPECTED_EOF`. -/
theorem c10_nul_byte_is_eof (fuel : Nat) (ctx : Ctx)
    (hguard : ¬(stateIdx HState.sNameExpected ≤ stateIdx ctx.state ∧ ctx.stack = []))
    (hnul : (loopChar ctx).value = 0) :
    parseLoop (fuel + 1) ctx = (.cErrEof,
      { ctx with stream := loopStream ctx, stream_length := loopBtc ctx,
                 error_return_state := ctx.state, state := .sErrEof }) := by
  simp only [parseLoop]
  rw [if_neg hguard, if_pos (Or.inl hnul)]
  rfl

theorem c10_nul_byte_is_eof_witness :
    ¬(stateIdx HState.sNameExpected ≤ stateIdx c10Ctx.state ∧ c10Ctx.stack = []) ∧
    (loopChar c10Ctx).value = 0 ∧
    parseLoop 3 c10Ctx = (.cErrEof,
      { c10Ctx with stream := loopStream c10Ctx, stream_length := loopBtc c10Ctx,
                    error_return_state := c10Ctx.state, state := .sErrEof }) :=
  ⟨by decide, by decide, c10_nul_byte_is_eof 2 c10Ctx (by decide) (by decide)⟩

theorem c4_number_termination_witness :
    c4Ctx.state = .sNumberValue ∧ c4Ctx.stack ≠ [] ∧
    (isWhitespace (loopChar c4Ctx).value = true ∨ (loopChar c4Ctx).value = 44 ∨
      (loopChar c4Ctx).value = 93 ∨ (loopChar c4Ctx).value = 125) ∧
    (∃ ctx', parseLoop 1 c4Ctx = (.cValue, ctx') ∧
      ctx'.value_type = (if ((topNode c4Ctx).flags.decimal ||
          (topNode c4Ctx).flags.exponent) = true then VType.tFloat else VType.tInteger) ∧
      (∀ off, c4Ctx.string_value = some off →
        (((topNode c4Ctx).flags.decimal || (topNode c4Ctx).flags.exponent) = true →
          ctx'.float_value = readCString c4Ctx.buffer off) ∧
        (((topNode c4Ctx).flags.decimal || (topNode c4Ctx).flags.exponent) = false →
          ctx'.integer_value = atoiModel (readCString c4Ctx.buffer off))) ∧
      ctx'.state = .sPostValue ∧
      ctx'.iterator = (if isWhitespace (loopChar c4Ctx).value = true then
          c4Ctx.iterator + sizeSub (loopChar c4Ctx).bytes c4Ctx.stream_length
        else c4Ctx.iterator)) :=
  ⟨by decide, by decide, by decide,
    c4_number_termination 0 c4Ctx (by decide) (by decide) (by decide)⟩

/-- C9: `hojson_parse` returns `INVALID_INPUT` and leaves the context
untouched when the context is null or uninitialized, the input pointer is
null, or the input length is zero; in particular a zero-length slice yields
`INVALID_INPUT`, not `UNEXPECTED_EOF`. -/
theorem c9_invalid_input_guard (octx : Option Ctx) (p : Nat) (oj : Option (List Nat))
    (h : octx = none ∨ (∃ ctx, octx = some ctx ∧ ctx.is_initialized = 0) ∨ oj = none ∨
      oj = some []) :
    hojson_parse octx p oj = (.cInvalidInput, octx) := by
  rcases h with rfl | ⟨c, rfl, hc⟩ | rfl | rfl
  · cases oj <;> simp [hojson_parse]
  · cases oj with
    | none => simp [hojson_parse]
    | some j => simp [hojson_parse, hc]
  · cases octx <;> simp [hojson_parse]
  · cases octx <;> simp [hojson_parse]

theorem c9_invalid_input_guard_witness :
    (some (hojson_init 8) = none ∨
      (∃ ctx, some (hojson_init 8) = some ctx ∧ ctx.is_initialized = 0) ∨
      (some ([] : List Nat) : Option (List Nat)) = none ∨
      (some ([] : List Nat) : Option (List Nat)) = some []) ∧
    hojson_parse (some (hojson_init 8)) 0 (some []) =
      (.cInvalidInput, some (hojson_init 8)) :=
  ⟨Or.inr (Or.inr (Or.inr rfl)),
    c9_invalid_input_guard (some (hojson_init 8)) 0 (some [])
      (Or.inr (Or.inr (Or.inr rfl)))⟩

end Hojson

namespace HojsonRealloc

open Hojson

/-- C8: for an initialized context and a strictly larger buffer,
`hojson_realloc` copies the old buffer contents into the start of the new
buffer, rewrites every chain node's `parent` and `end` pointers and the
exported `name`, `string_value` and stack pointers to the same offsets of
the new buffer, and, when the state was `INSUFFICIENT_MEMORY`, restores the
stashed `error_return_state` so the next call resumes. -/
theorem c8_realloc_preserves_offsets_and_state (ctx : RCtx) (newBase newLen : Nat)
    (hinit : ctx.is_initialized ≠ 0) (hlen : ctx.buffer_length < newLen)
    (hbuf : ctx.buffer.length = ctx.buffer_length) :
    (hojson_realloc ctx newBase newLen).buffer.take ctx.buffer_length = ctx.buffer ∧
    (hojson_realloc ctx newBase newLen).buffer.length = newLen ∧
    List.Forall₂ (fun nd nd' =>
        nd'.addr - newBase = nd.addr - ctx.buffer_base ∧
        nd'.endAddr - newBase = nd.endAddr - ctx.buffer_base ∧
        nd'.parent.map (fun q => q - newBase) = nd.parent.map (fun q => q - ctx.buffer_base))
      ctx.chain (hojson_realloc ctx newBase newLen).chain ∧
    (hojson_realloc ctx newBase newLen).name.map (fun q => q - newBase) =
      ctx.name.map (fun q => q - ctx.buffer_base) ∧
    (hojson_realloc ctx newBase newLen).string_value.map (fun q => q - newBase) =
      ctx.string_value.map (fun q => q - ctx.buffer_base) ∧
    (hojson_realloc ctx newBase newLen).stack.map (fun q => q - newBase) =
      ctx.stack.map (fun q => q - ctx.buffer_base) ∧
    (ctx.state = .sErrMemory →
      (hojson_realloc ctx newBase newLen).state = ctx.error_return_state ∧
      (hojson_realloc ctx newBase newLen).error_return_state = .sNone) ∧
    (ctx.state ≠ .sErrMemory →
      (hojson_realloc ctx newBase newLen).state = ctx.state ∧
      (hojson_realloc ctx newBase newLen).error_return_state =
        ctx.error_return_state) := by
  have hguard : ¬(ctx.is_initialized = 0 ∨ newLen ≤ ctx.buffer_length) := by
    push_neg
    exact ⟨hinit, hlen⟩
  simp only [hojson_realloc, if_neg hguard]
  refine ⟨?_, ?_, ?_, ?_, ?_, ?_, ?_, ?_⟩
  · rw [← hbuf, List.take_left]
  · simp [hbuf]
    omega
  · rw [List.forall₂_map_right_iff]
    apply List.forall₂_same.mpr
    intro nd _
    refine ⟨?_, ?_, ?_⟩
    · simp [moveNode, movePtr]
    · simp [moveNode, movePtr]
    · rcases hp : nd.parent with _ | q <;> simp [moveNode, movePtr, hp]
  · rcases hn : ctx.name with _ | q <;> simp [movePtr, hn]
  · rcases hv : ctx.string_value with _ | q <;> simp [movePtr, hv]
  · rcases hk : ctx.stack with _ | q <;> simp [movePtr, hk]
  · intro hs
    simp [hs]
  · intro hs
    simp [hs]

theorem c8_realloc_preserves_offsets_and_state_witness :
    c8Ctx.is_initialized ≠ 0 ∧ c8Ctx.buffer_length < 8 ∧
    c8Ctx.buffer.length = c8Ctx.buffer_length ∧
    ((hojson_realloc c8Ctx 200 8).buffer.take c8Ctx.buffer_length = c8Ctx.buffer ∧
    (hojson_realloc c8Ctx 200 8).buffer.length = 8 ∧
    List.Forall₂ (fun nd nd' =>
        nd'.addr - 200 = nd.addr - c8Ctx.buffer_base ∧
        nd'.endAddr - 200 = nd.endAddr - c8Ctx.buffer_base ∧
        nd'.parent.map (fun q => q - 200) = nd.parent.map (fun q => q - c8Ctx.buffer_base))
      c8Ctx.chain (hojson_realloc c8Ctx 200 8).chain ∧
    (hojson_realloc c8Ctx 200 8).name.map (fun q => q - 200) =
      c8Ctx.name.map (fun q => q - c8Ctx.buffer_base) ∧
    (hojson_realloc c8Ctx 200 8).string_value.map (fun q => q - 200) =
      c8Ctx.string_value.map (fun q => q - c8Ctx.buffer_base) ∧
    (hojson_realloc c8Ctx 200 8).stack.map (fun q => q - 200) =
      c8Ctx.stack.map (fun q => q - c8Ctx.buffer_base) ∧
    (c8Ctx.state = .sErrMemory →
      (hojson_realloc c8Ctx 200 8).state = c8Ctx.error_return_state ∧
      (hojson_realloc c8Ctx 200 8).error_return_state = .sNone) ∧
    (c8Ctx.state ≠ .sErrMemory →
      (hojson_realloc c8Ctx 200 8).state = c8Ctx.state ∧
      (hojson_realloc c8Ctx 200 8).error_return_state = c8Ctx.error_return_state)) :=
  ⟨by decide, by decide, by decide,
    c8_realloc_preserves_offsets_and_state c8Ctx 200 8 (by decide) (by decide) (by decide)⟩

end HojsonRealloc
